import Mathlib

/-!
Verification of the Sudoku solver (`sudoku_solver/sudoku.py`, `sudoku_solver/cell.py`).

The Python code is shallowly embedded:
* `Cell` / `Sudoku` mirror the two classes; `Cell.value` is an `Int`.
* Python's in-place mutation of `self.grid` is modelled by explicit state
  passing: `setCell` returns the updated board, `solve` returns the final
  board next to its boolean result.
* Python list subscription `l[i]` (negative indices wrap, out-of-range
  raises `IndexError`) is modelled by `pyGetItem`, with `none` standing
  for the raised exception.  The accessors `get_row` / `get_col` use it.
* `int(np.sqrt(n))` is the floor square root, modelled by `isqrt`
  (a structurally recursive definition so that it evaluates by `decide`).
* The recursion of `solve` is modelled with explicit fuel (`solveF`);
  one unit of fuel is consumed per recursive call, and every recursive
  call fills one previously empty cell, so `emptyCount s + 1` units of
  fuel always suffice.  `solve` is `solveF` at that fuel.
-/

namespace SudokuVerif

/-- Floor square root, `isqrtAux n m` = the largest `k ≤ m` with `k * k ≤ n`
(or `0`).  Models Python's `int(np.sqrt(n))`. -/
def isqrtAux (n : Nat) : Nat → Nat
  | 0 => 0
  | k + 1 => if (k + 1) * (k + 1) ≤ n then k + 1 else isqrtAux n k

/-- Floor square root: `isqrt n = ⌊√n⌋`, models `int(np.sqrt(n))`. -/
def isqrt (n : Nat) : Nat := isqrtAux n n

/-- `class Cell`: a single grid cell holding an integer value (0 = empty). -/
structure Cell where
  value : Int
  deriving DecidableEq, Repr

/-- `class Sudoku`: the board with its `dimension`, `block_size` and `grid`
attributes. -/
structure Sudoku where
  dimension : Nat
  block_size : Nat
  grid : List (List Cell)
  deriving DecidableEq, Repr

/-- `Sudoku.__init__`: `dimension = int(np.sqrt(len(numbers)))`,
`block_size = int(np.sqrt(dimension))` when `dimension >= 4` else
`dimension`, and the grid is built row-major from `numbers`.
The source performs no validation of `numbers` whatsoever.
(The index `i * dimension + j` is always `< numbers.length` because
`dimension ^ 2 ≤ numbers.length`, so the `getD` default is never used.) -/
def mkSudoku (numbers : List Int) : Sudoku :=
  { dimension := isqrt numbers.length
    block_size := if 4 ≤ isqrt numbers.length then isqrt (isqrt numbers.length)
                  else isqrt numbers.length
    grid := (List.range (isqrt numbers.length)).map (fun i =>
      (List.range (isqrt numbers.length)).map (fun j =>
        Cell.mk (numbers.getD (i * isqrt numbers.length + j) 0))) }

/-- Python list subscription `l[i]`: negative indices address from the end,
indices out of `[-len l, len l)` raise `IndexError` (modelled as `none`). -/
def pyGetItem {α : Type} (l : List α) (i : Int) : Option α :=
  if 0 ≤ i then l.get? i.toNat
  else if 0 ≤ i + l.length then l.get? (i + l.length).toNat
  else none

/-- `Sudoku.get_row`: `return self.grid[row]`. -/
def get_row (s : Sudoku) (row : Int) : Option (List Cell) :=
  pyGetItem s.grid row

/-- Sequence the cell lookups of a column, first failure aborting, like the
list comprehension in `get_col`. -/
def seqCells (f : Nat → Option Cell) : List Nat → Option (List Cell)
  | [] => some []
  | r :: rest =>
    match f r, seqCells f rest with
    | some c, some cs => some (c :: cs)
    | _, _ => none

/-- `Sudoku.get_col`: `[self.grid[row][col] for row in range(self.dimension)]`. -/
def get_col (s : Sudoku) (col : Int) : Option (List Cell) :=
  seqCells (fun row => (s.grid.get? row).bind (fun r => pyGetItem r col))
    (List.range s.dimension)

/-- Total read of row `row` of the grid; identical to `get_row` on the
in-range indices that the solver uses. -/
def rowOf (s : Sudoku) (row : Nat) : List Cell :=
  s.grid.getD row []

/-- Total read of the cell value at `(row, col)`; `grid[row][col].value`.
On a well-shaped board the default is never used. -/
def cellVal (s : Sudoku) (row col : Nat) : Int :=
  ((rowOf s row).getD col (Cell.mk 0)).value

/-- Total read of column `col`, as in `get_col`. -/
def colOf (s : Sudoku) (col : Nat) : List Cell :=
  (List.range s.dimension).map (fun row => (rowOf s row).getD col (Cell.mk 0))

/-- `Sudoku.get_block` (total form used by the solver): the whole grid when
`dimension <= 3`, otherwise the `block_size × block_size` sub-grid at
(`block_row * block_size`, `block_col * block_size`). -/
def get_block (s : Sudoku) (block_row block_col : Nat) : List (List Cell) :=
  if s.dimension ≤ 3 then s.grid
  else (List.range s.block_size).map (fun a =>
    (List.range s.block_size).map (fun b =>
      (rowOf s (block_row * s.block_size + a)).getD
        (block_col * s.block_size + b) (Cell.mk 0)))

/-- `Sudoku.is_valid`: `number` appears nowhere in the row, the column, nor
the block at index (`row // int(np.sqrt(dimension))`,
`col // int(np.sqrt(dimension))`). -/
def is_valid (s : Sudoku) (row col : Nat) (number : Int) : Bool :=
  if (rowOf s row).any (fun cell => cell.value == number) then false
  else if (colOf s col).any (fun cell => cell.value == number) then false
  else
    let block_row := row / isqrt s.dimension
    let block_col := col / isqrt s.dimension
    let block := get_block s block_row block_col
    if block.any (fun r => r.any (fun cell => cell.value == number)) then false
    else true

/-- The candidate list `range(1, dimension + 1)` used by both
`find_best_cell` and `solve`. -/
def numsList (s : Sudoku) : List Int :=
  (List.range s.dimension).map (fun (k : Nat) => (k : Int) + 1)

/-- The `options` list of `find_best_cell`:
`[num for num in range(1, dimension + 1) if is_valid(row, col, num)]`. -/
def optionsAt (s : Sudoku) (row col : Nat) : List Int :=
  (numsList s).filter (fun num => is_valid s row col num)

/-- `len(options) < min_options`, where `min_options` starts at
`float('inf')` (`none`). -/
def ltMin (n : Nat) : Option Nat → Bool
  | none => true
  | some m => n < m

/-- The scan loop of `Sudoku.find_best_cell` over the remaining coordinates,
carrying `min_options` (`none` = infinity) and `best_cell`.  The early
`return best_cell` when `min_options == 1` is the first branch. -/
def fbcAux (s : Sudoku) : List (Nat × Nat) → Option Nat → Option (Nat × Nat) →
    Option (Nat × Nat)
  | [], _, best => best
  | (row, col) :: rest, minOptions, best =>
    if cellVal s row col == 0 then
      let len := (optionsAt s row col).length
      let st := if ltMin len minOptions then (some len, some (row, col))
                else (minOptions, best)
      if st.1 == some 1 then st.2
      else fbcAux s rest st.1 st.2
    else fbcAux s rest minOptions best

/-- Row-major list of all coordinates scanned by `find_best_cell`. -/
def allCoords (s : Sudoku) : List (Nat × Nat) :=
  (List.range s.dimension).flatMap (fun row =>
    (List.range s.dimension).map (fun col => (row, col)))

/-- `Sudoku.find_best_cell`. -/
def find_best_cell (s : Sudoku) : Option (Nat × Nat) :=
  fbcAux s (allCoords s) none none

/-- Invariant of the `find_best_cell` scan state: the running minimum is
still infinite, or at least 2 (so the `min_options == 1` early exit has not
fired and cannot have fired). -/
def MinInv (m : Option Nat) : Prop :=
  m = none ∨ ∃ k, m = some k ∧ 2 ≤ k

/-- `self.grid[row][col].value = v`, returning the updated board. -/
def setCell (s : Sudoku) (row col : Nat) (v : Int) : Sudoku :=
  { s with grid := s.grid.set row ((s.grid.getD row []).set col (Cell.mk v)) }

/-- The candidate loop of `Sudoku.solve` for the chosen cell: try each
number in order, recurse (`f`) after a tentative assignment, undo the
assignment (`setCell _ row col 0`) when the recursion fails. -/
def tryLoop (f : Sudoku → Bool × Sudoku) (row col : Nat) :
    Sudoku → List Int → Bool × Sudoku
  | s, [] => (false, s)
  | s, num :: rest =>
    if is_valid s row col num then
      match f (setCell s row col num) with
      | (true, t) => (true, t)
      | (false, t) => tryLoop f row col (setCell t row col 0) rest
    else tryLoop f row col s rest

/-- `Sudoku.solve` with explicit fuel; each recursive call consumes one
unit.  With fuel `emptyCount s + 1` the fuel never runs out (each
recursive call has strictly fewer empty cells), see `solveF_fuel_irrel`. -/
def solveF : Nat → Sudoku → Bool × Sudoku
  | 0, s => (false, s)
  | fuel + 1, s =>
    match find_best_cell s with
    | none => (true, s)
    | some (row, col) => tryLoop (fun t => solveF fuel t) row col s (numsList s)

/-- Number of empty (zero) cells of the grid. -/
def emptyCount (s : Sudoku) : Nat :=
  (s.grid.map (fun row => row.countP (fun cell => cell.value == 0))).sum

/-- `Sudoku.solve`: the boolean result together with the final grid state. -/
def solve (s : Sudoku) : Bool × Sudoku :=
  solveF (emptyCount s + 1) s

/-! ### Well-formedness and the specification-side predicates -/

/-- The grid really is a `dimension × dimension` matrix (§3 invariant;
holds for every constructed board). -/
def GridShape (s : Sudoku) : Prop :=
  s.grid.length = s.dimension ∧ ∀ row ∈ s.grid, row.length = s.dimension

/-- A board as produced by the constructor and required by the data model:
square grid, `block_size` as computed by `__init__`, and (per §3) the
dimension a perfect square whenever it is at least 4. -/
def Wf (s : Sudoku) : Prop :=
  GridShape s ∧
  s.block_size = (if 4 ≤ s.dimension then isqrt s.dimension else s.dimension) ∧
  (s.dimension ≤ 3 ∨ isqrt s.dimension * isqrt s.dimension = s.dimension)

/-- Two coordinates lie in the same block: for `dimension ≤ 3` the whole
grid is a single block, otherwise the block indices (integer division by
`⌊√dimension⌋`) agree. -/
def sameBlock (d : Nat) (r1 c1 r2 c2 : Nat) : Prop :=
  d ≤ 3 ∨ (r1 / isqrt d = r2 / isqrt d ∧ c1 / isqrt d = c2 / isqrt d)

/-- Row/column/block uniqueness over the filled (nonzero) cells: no value
occurs at two distinct coordinates of a common row, column or block. -/
def uniqOn (s : Sudoku) : Prop :=
  ∀ r1, r1 < s.dimension → ∀ c1, c1 < s.dimension →
  ∀ r2, r2 < s.dimension → ∀ c2, c2 < s.dimension →
    (r1, c1) ≠ (r2, c2) →
    (r1 = r2 ∨ c1 = c2 ∨ sameBlock s.dimension r1 c1 r2 c2) →
    cellVal s r1 c1 ≠ 0 → cellVal s r1 c1 ≠ cellVal s r2 c2

/-- Every cell value lies in `[0, dimension]`. -/
def ValuesIn (s : Sudoku) : Prop :=
  ∀ r, r < s.dimension → ∀ c, c < s.dimension →
    0 ≤ cellVal s r c ∧ cellVal s r c ≤ (s.dimension : Int)

/-- `t` is a satisfying completion of `s`: it keeps every clue of `s`,
fills every cell with a value in `[1, dimension]`, and satisfies
row/column/block uniqueness. -/
def Solves (s t : Sudoku) : Prop :=
  t.dimension = s.dimension ∧
  (∀ r, r < s.dimension → ∀ c, c < s.dimension →
    cellVal s r c ≠ 0 → cellVal t r c = cellVal s r c) ∧
  (∀ r, r < s.dimension → ∀ c, c < s.dimension →
    1 ≤ cellVal t r c ∧ cellVal t r c ≤ (s.dimension : Int)) ∧
  uniqOn t

instance (s : Sudoku) : Decidable (GridShape s) := by
  unfold GridShape; infer_instance

instance (s : Sudoku) : Decidable (Wf s) := by
  unfold Wf; infer_instance

instance (d r1 c1 r2 c2 : Nat) : Decidable (sameBlock d r1 c1 r2 c2) := by
  unfold sameBlock; infer_instance

instance (s : Sudoku) : Decidable (uniqOn s) := by
  unfold uniqOn
  refine @Nat.decidableBallLT s.dimension _ ?_
  intro r1 h1
  refine @Nat.decidableBallLT s.dimension _ ?_
  intro c1 h2
  refine @Nat.decidableBallLT s.dimension _ ?_
  intro r2 h3
  refine @Nat.decidableBallLT s.dimension _ ?_
  intro c2 h4
  infer_instance

instance (s : Sudoku) : Decidable (ValuesIn s) := by
  unfold ValuesIn; infer_instance

/-! ### Arithmetic facts about the floor square root -/

lemma isqrtAux_le (n : Nat) : ∀ m, isqrtAux n m ≤ m
  | 0 => Nat.le_refl 0
  | k + 1 => by
    unfold isqrtAux
    split
    · exact Nat.le_refl _
    · exact Nat.le_trans (isqrtAux_le n k) (Nat.le_succ k)

lemma isqrtAux_sq_le (n : Nat) : ∀ m, isqrtAux n m * isqrtAux n m ≤ n
  | 0 => Nat.zero_le n
  | k + 1 => by
    unfold isqrtAux
    split
    · assumption
    · exact isqrtAux_sq_le n k

lemma le_isqrtAux (n : Nat) : ∀ m k, k ≤ m → k * k ≤ n → k ≤ isqrtAux n m
  | 0, k, hk, _ => by simpa [isqrtAux] using hk
  | m + 1, k, hk, hsq => by
    unfold isqrtAux
    split
    · exact hk
    · rename_i hno
      have hkm : k ≤ m := by
        by_contra hgt
        have hk1 : k = m + 1 := by omega
        subst hk1
        exact hno hsq
      exact le_isqrtAux n m k hkm hsq

lemma isqrt_sq_le (n : Nat) : isqrt n * isqrt n ≤ n :=
  isqrtAux_sq_le n n

lemma le_isqrt {k n : Nat} (h : k * k ≤ n) : k ≤ isqrt n := by
  have hk : k ≤ n := by
    cases k with
    | zero => exact Nat.zero_le n
    | succ m =>
      calc m + 1 ≤ (m + 1) * (m + 1) := Nat.le_mul_of_pos_left _ (Nat.succ_pos m)
        _ ≤ n := h
  exact le_isqrtAux n n k hk h

lemma isqrt_of_sq {b n : Nat} (h : b * b = n) : isqrt n = b := by
  have h1 : b ≤ isqrt n := le_isqrt (Nat.le_of_eq h)
  have h2 : isqrt n ≤ b := by
    by_contra hlt
    have : b < isqrt n := Nat.lt_of_not_le hlt
    have : b * b < isqrt n * isqrt n := Nat.mul_self_lt_mul_self this
    have := Nat.lt_of_lt_of_le this (isqrt_sq_le n)
    omega
  omega

lemma isqrt_mul_self (b : Nat) : isqrt (b * b) = b :=
  isqrt_of_sq rfl

/-! ### List access helper lemmas -/

lemma getD_eq_getElem {α : Type} (l : List α) (d : α) {i : Nat} (h : i < l.length) :
    l.getD i d = l[i] := by
  simp [List.getD, List.getElem?_eq_getElem h]

lemma getD_eq_default {α : Type} (l : List α) (d : α) {i : Nat} (h : l.length ≤ i) :
    l.getD i d = d := by
  simp [List.getD, List.getElem?_eq_none h]

lemma getD_set_eq {α : Type} (l : List α) (i : Nat) (a d : α) (h : i < l.length) :
    (l.set i a).getD i d = a := by
  simp [List.getD, List.getElem?_set_self, h]

lemma getD_set_ne {α : Type} (l : List α) {i j : Nat} (a d : α) (h : i ≠ j) :
    (l.set i a).getD j d = l.getD j d := by
  simp [List.getD, List.getElem?_set_ne h]

lemma set_getD_self {α : Type} : ∀ (l : List α) (i : Nat) (d : α),
    l.set i (l.getD i d) = l
  | [], _, _ => rfl
  | _ :: _, 0, _ => rfl
  | a :: l, i + 1, d => congrArg (List.cons a) (set_getD_self l i d)

lemma range_map_getD {α : Type} (n : Nat) (f : Nat → α) (d : α) {i : Nat}
    (h : i < n) : ((List.range n).map f).getD i d = f i := by
  simp [List.getD, List.getElem?_eq_getElem, h]

lemma sum_set : ∀ (xs : List Nat) (r : Nat) (y : Nat), r < xs.length →
    (xs.set r y).sum + xs.getD r 0 = xs.sum + y
  | [], r, y, h => by simp at h
  | x :: xs, 0, y, _ => by
    show (y :: xs).sum + x = (x :: xs).sum + y
    simp only [List.sum_cons]
    omega
  | x :: xs, r + 1, y, h => by
    have ih := sum_set xs r y (by simpa using Nat.lt_of_succ_lt_succ h)
    show (x :: xs.set r y).sum + xs.getD r 0 = (x :: xs).sum + y
    simp only [List.sum_cons]
    omega

/-! ### Basic facts about the embedded operations -/

lemma setCell_dimension (s : Sudoku) (r c : Nat) (v : Int) :
    (setCell s r c v).dimension = s.dimension := rfl

lemma setCell_block_size (s : Sudoku) (r c : Nat) (v : Int) :
    (setCell s r c v).block_size = s.block_size := rfl

lemma cellVal_setCell_same (s : Sudoku) {r c : Nat} (hr : r < s.grid.length)
    (hc : c < (rowOf s r).length) (v : Int) :
    cellVal (setCell s r c v) r c = v := by
  unfold cellVal rowOf setCell
  simp only
  rw [getD_set_eq _ _ _ _ (by simpa using hr)]
  rw [getD_set_eq _ _ _ _ (by simpa [rowOf] using hc)]

lemma cellVal_setCell_ne (s : Sudoku) (r c i j : Nat) (v : Int)
    (h : ¬(i = r ∧ j = c)) :
    cellVal (setCell s r c v) i j = cellVal s i j := by
  unfold cellVal rowOf setCell
  simp only
  by_cases hir : i = r
  · subst hir
    have hjc : j ≠ c := fun hj => h ⟨rfl, hj⟩
    by_cases hil : i < s.grid.length
    · rw [getD_set_eq _ _ _ _ (by simpa using hil)]
      rw [getD_set_ne _ _ _ (fun hc => hjc hc.symm)]
    · rw [List.set_eq_of_length_le (by simpa using Nat.le_of_not_lt hil)]
  · rw [getD_set_ne _ _ _ (fun hr => hir hr.symm)]

lemma setCell_setCell_restore (s : Sudoku) {r c : Nat} (h : cellVal s r c = 0)
    (v : Int) : setCell (setCell s r c v) r c 0 = s := by
  obtain ⟨d, b, g⟩ := s
  unfold setCell
  simp only [Sudoku.mk.injEq, true_and]
  have hcell : (g.getD r []).getD c (Cell.mk 0) = Cell.mk 0 := by
    have hv : ((g.getD r []).getD c (Cell.mk 0)).value = 0 := h
    calc (g.getD r []).getD c (Cell.mk 0)
        = Cell.mk (((g.getD r []).getD c (Cell.mk 0)).value) := rfl
      _ = Cell.mk 0 := by rw [hv]
  by_cases hrl : r < g.length
  · rw [getD_set_eq _ _ _ _ (by simpa using hrl), List.set_set, List.set_set]
    calc g.set r ((g.getD r []).set c (Cell.mk 0))
        = g.set r ((g.getD r []).set c ((g.getD r []).getD c (Cell.mk 0))) := by
          rw [hcell]
      _ = g.set r (g.getD r []) := by rw [set_getD_self]
      _ = g := set_getD_self g r []
  · rw [List.set_eq_of_length_le (Nat.le_of_not_lt hrl),
      List.set_eq_of_length_le (Nat.le_of_not_lt hrl)]

lemma setCell_id_of_oob (s : Sudoku) {r : Nat} (hrl : ¬ r < s.grid.length)
    (c : Nat) (v : Int) : setCell s r c v = s := by
  unfold setCell
  rw [List.set_eq_of_length_le (Nat.le_of_not_lt hrl)]

lemma mem_allCoords {s : Sudoku} {p : Nat × Nat} :
    p ∈ allCoords s ↔ p.1 < s.dimension ∧ p.2 < s.dimension := by
  obtain ⟨a, b⟩ := p
  simp [allCoords]

lemma rowOf_length {s : Sudoku} (h : GridShape s) {r : Nat}
    (hr : r < s.dimension) : (rowOf s r).length = s.dimension := by
  have hrl : r < s.grid.length := by rw [h.1]; exact hr
  rw [rowOf, getD_eq_getElem _ _ hrl]
  exact h.2 _ (List.getElem_mem hrl)

lemma gridShape_setCell {s : Sudoku} (h : GridShape s) (r c : Nat) (v : Int) :
    GridShape (setCell s r c v) := by
  by_cases hrl : r < s.grid.length
  · constructor
    · simp [setCell, h.1]
    · intro row hrow
      simp only [setCell] at hrow
      rcases List.mem_or_eq_of_mem_set hrow with hmem | heq
      · exact h.2 _ hmem
      · subst heq
        rw [List.length_set]
        have hlen : (rowOf s r).length = s.dimension :=
          rowOf_length h (h.1 ▸ hrl)
        simpa [rowOf] using hlen
  · rw [setCell_id_of_oob s hrl]
    exact h

lemma wf_setCell {s : Sudoku} (h : Wf s) (r c : Nat) (v : Int) :
    Wf (setCell s r c v) :=
  ⟨gridShape_setCell h.1 r c v, h.2.1, h.2.2⟩

lemma countP_set_fill : ∀ (row : List Cell) (c : Nat), c < row.length →
    (row.getD c (Cell.mk 0)).value = 0 → ∀ v : Int, v ≠ 0 →
    (row.set c (Cell.mk v)).countP (fun cell => cell.value == 0) + 1
      = row.countP (fun cell => cell.value == 0)
  | [], c, h, _, _, _ => absurd h (by simp)
  | x :: row, 0, _, h0, v, hv => by
    show ((Cell.mk v) :: row).countP _ + 1 = (x :: row).countP _
    rw [List.countP_cons, List.countP_cons]
    have hx : x.value = 0 := h0
    simp [hx, hv]
  | x :: row, c + 1, h, h0, v, hv => by
    have ih := countP_set_fill row c (by simpa using Nat.lt_of_succ_lt_succ h)
      h0 v hv
    show (x :: row.set c (Cell.mk v)).countP _ + 1 = (x :: row).countP _
    rw [List.countP_cons, List.countP_cons]
    omega

lemma emptyCount_setCell (s : Sudoku) {r c : Nat} (hr : r < s.grid.length)
    (hc : c < (rowOf s r).length) (h0 : cellVal s r c = 0) {v : Int}
    (hv : v ≠ 0) : emptyCount (setCell s r c v) + 1 = emptyCount s := by
  unfold emptyCount setCell
  simp only
  rw [List.map_set]
  have hlen : r < (s.grid.map
      (fun row => row.countP (fun cell => cell.value == 0))).length := by
    simpa using hr
  have hs := sum_set (s.grid.map (fun row => row.countP
    (fun cell => cell.value == 0))) r
    (((s.grid.getD r []).set c (Cell.mk v)).countP
      (fun cell => cell.value == 0)) hlen
  have hgd : (s.grid.map (fun row => row.countP
      (fun cell => cell.value == 0))).getD r 0
      = (s.grid.getD r []).countP (fun cell => cell.value == 0) := by
    rw [getD_eq_getElem _ _ hlen, getD_eq_getElem _ _ hr]
    simp
  rw [hgd] at hs
  have hcp := countP_set_fill (s.grid.getD r []) c (by simpa [rowOf] using hc)
    h0 v hv
  omega

/-! ### Facts about the constructor -/

lemma mkSudoku_dimension (numbers : List Int) :
    (mkSudoku numbers).dimension = isqrt numbers.length := rfl

lemma mkSudoku_gridShape (numbers : List Int) : GridShape (mkSudoku numbers) := by
  constructor
  · simp [mkSudoku]
  · intro row hrow
    simp only [mkSudoku, List.mem_map, List.mem_range] at hrow
    obtain ⟨i, _, rfl⟩ := hrow
    simp [mkSudoku]

lemma cellVal_mkSudoku (numbers : List Int) {r c : Nat}
    (hr : r < isqrt numbers.length) (hc : c < isqrt numbers.length) :
    cellVal (mkSudoku numbers) r c
      = numbers.getD (r * isqrt numbers.length + c) 0 := by
  unfold cellVal rowOf mkSudoku
  simp only
  rw [range_map_getD _ _ _ hr, range_map_getD _ _ _ hc]

lemma wf_mkSudoku (numbers : List Int)
    (hsq : isqrt numbers.length ≤ 3 ∨
      isqrt (isqrt numbers.length) * isqrt (isqrt numbers.length)
        = isqrt numbers.length) : Wf (mkSudoku numbers) :=
  ⟨mkSudoku_gridShape numbers, rfl, hsq⟩

/-! ### The `find_best_cell` scan -/

lemma fbcAux_cons_filled (s : Sudoku) {row col : Nat}
    (h0 : ¬ cellVal s row col = 0) (rest : List (Nat × Nat)) (m : Option Nat)
    (best : Option (Nat × Nat)) :
    fbcAux s ((row, col) :: rest) m best = fbcAux s rest m best := by
  simp [fbcAux, h0]

lemma fbcAux_cons_hit (s : Sudoku) {row col : Nat}
    (h0 : cellVal s row col = 0) {m : Option Nat}
    (hlt : ltMin (optionsAt s row col).length m = true)
    (h1 : (optionsAt s row col).length = 1) (rest : List (Nat × Nat))
    (best : Option (Nat × Nat)) :
    fbcAux s ((row, col) :: rest) m best = some (row, col) := by
  have hlt1 : ltMin 1 m = true := by rw [← h1]; exact hlt
  simp [fbcAux, h0, h1, hlt1]

lemma fbcAux_cons_update (s : Sudoku) {row col : Nat}
    (h0 : cellVal s row col = 0) {m : Option Nat}
    (hlt : ltMin (optionsAt s row col).length m = true)
    (h1 : (optionsAt s row col).length ≠ 1) (rest : List (Nat × Nat))
    (best : Option (Nat × Nat)) :
    fbcAux s ((row, col) :: rest) m best
      = fbcAux s rest (some (optionsAt s row col).length) (some (row, col)) := by
  simp [fbcAux, h0, hlt, h1]

lemma fbcAux_cons_stop (s : Sudoku) {row col : Nat}
    (h0 : cellVal s row col = 0) {m : Option Nat}
    (hlt : ¬ ltMin (optionsAt s row col).length m = true) (hm : m = some 1)
    (rest : List (Nat × Nat)) (best : Option (Nat × Nat)) :
    fbcAux s ((row, col) :: rest) m best = best := by
  subst hm
  simp only [Bool.not_eq_true] at hlt
  simp [fbcAux, h0, hlt]

lemma fbcAux_cons_keep (s : Sudoku) {row col : Nat}
    (h0 : cellVal s row col = 0) {m : Option Nat}
    (hlt : ¬ ltMin (optionsAt s row col).length m = true) (hm : m ≠ some 1)
    (rest : List (Nat × Nat)) (best : Option (Nat × Nat)) :
    fbcAux s ((row, col) :: rest) m best = fbcAux s rest m best := by
  simp only [fbcAux]
  rw [if_pos (by simpa using h0), if_neg hlt]
  simp only
  rw [if_neg (by
    cases m with
    | none => simp
    | some k => simpa using fun hk => hm (by rw [hk]))]

lemma fbcAux_some (s : Sudoku) : ∀ (coords : List (Nat × Nat)) (m : Option Nat)
    (best : Option (Nat × Nat)) (p : Nat × Nat),
    fbcAux s coords m best = some p →
    best = some p ∨ (p ∈ coords ∧ cellVal s p.1 p.2 = 0)
  | [], m, best, p, h => Or.inl h
  | (row, col) :: rest, m, best, p, h => by
    by_cases hempty : cellVal s row col = 0
    · by_cases hlt : ltMin (optionsAt s row col).length m = true
      · by_cases h1 : (optionsAt s row col).length = 1
        · rw [fbcAux_cons_hit s hempty hlt h1] at h
          have hp : p = (row, col) := by simpa using h.symm
          exact Or.inr ⟨hp ▸ List.mem_cons_self _ _, by rw [hp]; exact hempty⟩
        · rw [fbcAux_cons_update s hempty hlt h1] at h
          rcases fbcAux_some s rest _ _ p h with hb | ⟨hmem, hemp⟩
          · have hp : p = (row, col) := by simpa using hb.symm
            exact Or.inr ⟨hp ▸ List.mem_cons_self _ _, by rw [hp]; exact hempty⟩
          · exact Or.inr ⟨List.mem_cons_of_mem _ hmem, hemp⟩
      · by_cases hm : m = some 1
        · rw [fbcAux_cons_stop s hempty hlt hm] at h
          exact Or.inl h
        · rw [fbcAux_cons_keep s hempty hlt hm] at h
          rcases fbcAux_some s rest _ _ p h with hb | ⟨hmem, hemp⟩
          · exact Or.inl hb
          · exact Or.inr ⟨List.mem_cons_of_mem _ hmem, hemp⟩
    · rw [fbcAux_cons_filled s hempty] at h
      rcases fbcAux_some s rest _ _ p h with hb | ⟨hmem, hemp⟩
      · exact Or.inl hb
      · exact Or.inr ⟨List.mem_cons_of_mem _ hmem, hemp⟩

lemma find_best_cell_some {s : Sudoku} {p : Nat × Nat}
    (h : find_best_cell s = some p) :
    p.1 < s.dimension ∧ p.2 < s.dimension ∧ cellVal s p.1 p.2 = 0 := by
  rcases fbcAux_some s (allCoords s) none none p h with hb | ⟨hmem, hemp⟩
  · exact absurd hb (by simp)
  · have := mem_allCoords.mp hmem
    exact ⟨this.1, this.2, hemp⟩

lemma fbcAux_isSome_of_best (s : Sudoku) :
    ∀ (coords : List (Nat × Nat)) (m : Option Nat) (q : Nat × Nat),
    ∃ p, fbcAux s coords m (some q) = some p
  | [], m, q => ⟨q, rfl⟩
  | (row, col) :: rest, m, q => by
    by_cases hempty : cellVal s row col = 0
    · by_cases hlt : ltMin (optionsAt s row col).length m = true
      · by_cases h1 : (optionsAt s row col).length = 1
        · exact ⟨(row, col), fbcAux_cons_hit s hempty hlt h1 rest (some q)⟩
        · rw [fbcAux_cons_update s hempty hlt h1]
          exact fbcAux_isSome_of_best s rest _ _
      · by_cases hm : m = some 1
        · exact ⟨q, fbcAux_cons_stop s hempty hlt hm rest (some q)⟩
        · rw [fbcAux_cons_keep s hempty hlt hm]
          exact fbcAux_isSome_of_best s rest _ _
    · rw [fbcAux_cons_filled s hempty]
      exact fbcAux_isSome_of_best s rest _ _

lemma fbcAux_none_iff (s : Sudoku) : ∀ (coords : List (Nat × Nat)),
    fbcAux s coords none none = none ↔ ∀ p ∈ coords, cellVal s p.1 p.2 ≠ 0
  | [] => by simp [fbcAux]
  | (row, col) :: rest => by
    by_cases hempty : cellVal s row col = 0
    · have hlt : ltMin (optionsAt s row col).length none = true := rfl
      constructor
      · intro h
        by_cases h1 : (optionsAt s row col).length = 1
        · rw [fbcAux_cons_hit s hempty hlt h1] at h
          exact absurd h (by simp)
        · rw [fbcAux_cons_update s hempty hlt h1] at h
          obtain ⟨p, hp⟩ := fbcAux_isSome_of_best s rest
            (some (optionsAt s row col).length) (row, col)
          rw [hp] at h
          exact absurd h (by simp)
      · intro h
        exact absurd hempty (by simpa using h (row, col) (List.mem_cons_self _ _))
    · rw [fbcAux_cons_filled s hempty]
      rw [fbcAux_none_iff s rest]
      constructor
      · intro h p hp
        rcases List.mem_cons.mp hp with h1 | h1
        · rw [h1]; simpa using hempty
        · exact h p h1
      · intro h p hp
        exact h p (List.mem_cons_of_mem _ hp)

lemma find_best_cell_none_iff (s : Sudoku) :
    find_best_cell s = none ↔
    ∀ r, r < s.dimension → ∀ c, c < s.dimension → cellVal s r c ≠ 0 := by
  rw [find_best_cell, fbcAux_none_iff]
  constructor
  · intro h r hr c hc
    exact h (r, c) (mem_allCoords.mpr ⟨hr, hc⟩)
  · intro h p hp
    have := mem_allCoords.mp hp
    exact h p.1 this.1 p.2 this.2

lemma fbcAux_skip (s : Sudoku) : ∀ (pre rest : List (Nat × Nat))
    (m : Option Nat) (best : Option (Nat × Nat)), MinInv m →
    (∀ p ∈ pre, cellVal s p.1 p.2 ≠ 0 ∨ 2 ≤ (optionsAt s p.1 p.2).length) →
    ∃ m' best', MinInv m' ∧
      fbcAux s (pre ++ rest) m best = fbcAux s rest m' best'
  | [], rest, m, best, hm, _ => ⟨m, best, hm, rfl⟩
  | (row, col) :: pre, rest, m, best, hm, hpre => by
    have hhead := hpre (row, col) (List.mem_cons_self _ _)
    have htail : ∀ p ∈ pre, cellVal s p.1 p.2 ≠ 0 ∨
        2 ≤ (optionsAt s p.1 p.2).length :=
      fun p hp => hpre p (List.mem_cons_of_mem _ hp)
    show ∃ m' best', MinInv m' ∧
      fbcAux s ((row, col) :: (pre ++ rest)) m best = fbcAux s rest m' best'
    by_cases hempty : cellVal s row col = 0
    · have hlen : 2 ≤ (optionsAt s row col).length := by
        rcases hhead with h | h
        · exact absurd hempty h
        · exact h
      by_cases hlt : ltMin (optionsAt s row col).length m = true
      · rw [fbcAux_cons_update s hempty hlt (by omega) (pre ++ rest) best]
        exact fbcAux_skip s pre rest _ _ (Or.inr ⟨_, rfl, hlen⟩) htail
      · have hm1 : m ≠ some 1 := by
          rcases hm with h | ⟨k, hk, h2⟩
          · rw [h]; simp
          · rw [hk]; simpa using fun hc => by omega
        rw [fbcAux_cons_keep s hempty hlt hm1 (pre ++ rest) best]
        exact fbcAux_skip s pre rest _ _ hm htail
    · rw [fbcAux_cons_filled s hempty (pre ++ rest) m best]
      exact fbcAux_skip s pre rest _ _ hm htail

lemma fbcAux_hit_first (s : Sudoku) {row col : Nat} {m : Option Nat}
    (hm : MinInv m) (hempty : cellVal s row col = 0)
    (h1 : (optionsAt s row col).length = 1) (rest : List (Nat × Nat))
    (best : Option (Nat × Nat)) :
    fbcAux s ((row, col) :: rest) m best = some (row, col) := by
  have hlt : ltMin (optionsAt s row col).length m = true := by
    rcases hm with h | ⟨k, hk, h2⟩
    · rw [h]; rfl
    · rw [hk, h1]
      simpa [ltMin] using by omega
  exact fbcAux_cons_hit s hempty hlt h1 rest best

lemma mem_split_first {α : Type} [DecidableEq α] : ∀ (l : List α) (a : α),
    a ∈ l → ∃ l1 l2, l = l1 ++ a :: l2 ∧ a ∉ l1
  | [], a, h => absurd h (List.not_mem_nil a)
  | b :: l, a, h => by
    by_cases hab : a = b
    · exact ⟨[], l, by rw [hab]; rfl, List.not_mem_nil a⟩
    · have hmem : a ∈ l := by
        rcases List.mem_cons.mp h with h1 | h1
        · exact absurd h1 hab
        · exact h1
      obtain ⟨l1, l2, heq, hnot⟩ := mem_split_first l a hmem
      refine ⟨b :: l1, l2, by rw [heq]; rfl, ?_⟩
      intro hc
      rcases List.mem_cons.mp hc with h1 | h1
      · exact hab h1
      · exact hnot h1

/-! ### The backtracking search -/

lemma solveF_zero (s : Sudoku) : solveF 0 s = (false, s) := rfl

lemma solveF_succ_none (s : Sudoku) (fuel : Nat)
    (h : find_best_cell s = none) : solveF (fuel + 1) s = (true, s) := by
  rw [solveF, h]

lemma solveF_succ_some (s : Sudoku) (fuel : Nat) {row col : Nat}
    (h : find_best_cell s = some (row, col)) :
    solveF (fuel + 1) s
      = tryLoop (fun t => solveF fuel t) row col s (numsList s) := by
  rw [solveF, h]

lemma tryLoop_nil (f : Sudoku → Bool × Sudoku) (row col : Nat) (s : Sudoku) :
    tryLoop f row col s [] = (false, s) := rfl

lemma tryLoop_cons_invalid (f : Sudoku → Bool × Sudoku) (row col : Nat)
    {s : Sudoku} {num : Int} (h : ¬ is_valid s row col num = true)
    (rest : List Int) :
    tryLoop f row col s (num :: rest) = tryLoop f row col s rest := by
  simp [tryLoop, h]

lemma tryLoop_cons_valid_true (f : Sudoku → Bool × Sudoku) (row col : Nat)
    {s : Sudoku} {num : Int} (h : is_valid s row col num = true)
    {t : Sudoku} (hf : f (setCell s row col num) = (true, t))
    (rest : List Int) :
    tryLoop f row col s (num :: rest) = (true, t) := by
  simp [tryLoop, h, hf]

lemma tryLoop_cons_valid_false (f : Sudoku → Bool × Sudoku) (row col : Nat)
    {s : Sudoku} {num : Int} (h : is_valid s row col num = true)
    {t : Sudoku} (hf : f (setCell s row col num) = (false, t))
    (rest : List Int) :
    tryLoop f row col s (num :: rest)
      = tryLoop f row col (setCell t row col 0) rest := by
  simp [tryLoop, h, hf]

/-- On failure the candidate loop hands back exactly the board it was
given: every tentative assignment has been undone. -/
lemma tryLoop_false (f : Sudoku → Bool × Sudoku) (row col : Nat)
    (hf : ∀ u u', f u = (false, u') → u' = u) :
    ∀ (nums : List Int) (s t : Sudoku), cellVal s row col = 0 →
    tryLoop f row col s nums = (false, t) → t = s
  | [], s, t, _, h => by
    rw [tryLoop_nil] at h
    exact (by simpa using h.symm : t = s ∧ True).1
  | num :: rest, s, t, h0, h => by
    by_cases hv : is_valid s row col num = true
    · rcases hres : f (setCell s row col num) with ⟨b, u⟩
      cases b with
      | true =>
        rw [tryLoop_cons_valid_true f row col hv hres rest] at h
        exact absurd h (by simp)
      | false =>
        have hu : u = setCell s row col num := hf _ _ hres
        rw [tryLoop_cons_valid_false f row col hv hres rest] at h
        rw [hu, setCell_setCell_restore s h0 num] at h
        exact tryLoop_false f row col hf rest s t h0 h
    · rw [tryLoop_cons_invalid f row col hv rest] at h
      exact tryLoop_false f row col hf rest s t h0 h

/-- `solve` returning false restores the board: the final state is the
initial one. -/
lemma solveF_false : ∀ (fuel : Nat) (s t : Sudoku),
    solveF fuel s = (false, t) → t = s
  | 0, s, t, h => by
    rw [solveF_zero] at h
    exact (by simpa using h.symm : t = s ∧ True).1
  | fuel + 1, s, t, h => by
    rcases hfb : find_best_cell s with _ | ⟨row, col⟩
    · rw [solveF_succ_none s fuel hfb] at h
      exact absurd h (by simp)
    · rw [solveF_succ_some s fuel hfb] at h
      exact tryLoop_false (fun u => solveF fuel u) row col
        (fun u u' => solveF_false fuel u u') (numsList s) s t
        (find_best_cell_some hfb).2.2 h

/-- The candidate loop never changes a cell that is filled on entry: it
writes only to the chosen (empty) cell, and undoes that write on failure. -/
lemma tryLoop_preserve (f : Sudoku → Bool × Sudoku) (row col : Nat)
    (hfp : ∀ u b u', f u = (b, u') →
      ∀ i j, cellVal u i j ≠ 0 → cellVal u' i j = cellVal u i j)
    (hff : ∀ u u', f u = (false, u') → u' = u) :
    ∀ (nums : List Int) (s : Sudoku) (b : Bool) (t : Sudoku),
    cellVal s row col = 0 → tryLoop f row col s nums = (b, t) →
    ∀ i j, cellVal s i j ≠ 0 → cellVal t i j = cellVal s i j
  | [], s, b, t, _, h => by
    rw [tryLoop_nil] at h
    obtain ⟨hb, ht⟩ : b = false ∧ t = s := by simpa using h.symm
    intro i j _
    rw [ht]
  | num :: rest, s, b, t, h0, h => by
    intro i j hnz
    have hij : ¬ (i = row ∧ j = col) := by
      rintro ⟨rfl, rfl⟩
      exact hnz h0
    by_cases hv : is_valid s row col num = true
    · rcases hres : f (setCell s row col num) with ⟨b', u⟩
      cases b' with
      | true =>
        rw [tryLoop_cons_valid_true f row col hv hres rest] at h
        obtain ⟨hb, hbt⟩ : b = true ∧ t = u := by simpa using h.symm
        have h1 : cellVal (setCell s row col num) i j = cellVal s i j :=
          cellVal_setCell_ne s row col i j num hij
        have h2 : cellVal u i j = cellVal (setCell s row col num) i j :=
          hfp _ _ _ hres i j (by rw [h1]; exact hnz)
        rw [hbt, h2, h1]
      | false =>
        have hu : u = setCell s row col num := hff _ _ hres
        rw [tryLoop_cons_valid_false f row col hv hres rest] at h
        rw [hu, setCell_setCell_restore s h0 num] at h
        exact tryLoop_preserve f row col hfp hff rest s b t h0 h i j hnz
    · rw [tryLoop_cons_invalid f row col hv rest] at h
      exact tryLoop_preserve f row col hfp hff rest s b t h0 h i j hnz

/-- `solve` never overwrites a filled (nonzero) cell: it writes only to
cells that are empty at the moment of the write. -/
lemma solveF_preserve : ∀ (fuel : Nat) (s : Sudoku) (b : Bool) (t : Sudoku),
    solveF fuel s = (b, t) →
    ∀ i j, cellVal s i j ≠ 0 → cellVal t i j = cellVal s i j
  | 0, s, b, t, h => by
    rw [solveF_zero] at h
    obtain ⟨hb, ht⟩ : b = false ∧ t = s := by simpa using h.symm
    intro i j _
    rw [ht]
  | fuel + 1, s, b, t, h => by
    rcases hfb : find_best_cell s with _ | ⟨row, col⟩
    · rw [solveF_succ_none s fuel hfb] at h
      obtain ⟨hb, ht⟩ : b = true ∧ t = s := by simpa using h.symm
      intro i j _
      rw [ht]
    · rw [solveF_succ_some s fuel hfb] at h
      exact tryLoop_preserve (fun u => solveF fuel u) row col
        (fun u b' u' hu => solveF_preserve fuel u b' u' hu)
        (fun u u' hu => solveF_false fuel u u' hu) (numsList s) s b t
        (find_best_cell_some hfb).2.2 h

/-- The final board of `solveF` has the same `dimension`, `block_size` and
grid shape as the initial one. -/
lemma tryLoop_fields (f : Sudoku → Bool × Sudoku) (row col : Nat)
    (hf : ∀ u b u', f u = (b, u') → u'.dimension = u.dimension ∧
      u'.block_size = u.block_size ∧ (GridShape u → GridShape u')) :
    ∀ (nums : List Int) (s : Sudoku) (b : Bool) (t : Sudoku),
    tryLoop f row col s nums = (b, t) →
    t.dimension = s.dimension ∧ t.block_size = s.block_size ∧
      (GridShape s → GridShape t)
  | [], s, b, t, h => by
    rw [tryLoop_nil] at h
    obtain ⟨hb, ht⟩ : b = false ∧ t = s := by simpa using h.symm
    rw [ht]
    exact ⟨rfl, rfl, id⟩
  | num :: rest, s, b, t, h => by
    by_cases hv : is_valid s row col num = true
    · rcases hres : f (setCell s row col num) with ⟨b', u⟩
      cases b' with
      | true =>
        rw [tryLoop_cons_valid_true f row col hv hres rest] at h
        obtain ⟨hb, hbt⟩ : b = true ∧ t = u := by simpa using h.symm
        have := hf _ _ _ hres
        subst hbt
        exact ⟨this.1, this.2.1,
          fun hs => this.2.2 (gridShape_setCell hs row col num)⟩
      | false =>
        rw [tryLoop_cons_valid_false f row col hv hres rest] at h
        have h1 := hf _ _ _ hres
        have h2 := tryLoop_fields f row col hf rest (setCell u row col 0) b t h
        refine ⟨?_, ?_, ?_⟩
        · rw [h2.1, setCell_dimension, h1.1, setCell_dimension]
        · rw [h2.2.1, setCell_block_size, h1.2.1, setCell_block_size]
        · intro hs
          exact h2.2.2 (gridShape_setCell
            (h1.2.2 (gridShape_setCell hs row col num)) row col 0)
    · rw [tryLoop_cons_invalid f row col hv rest] at h
      exact tryLoop_fields f row col hf rest s b t h

lemma solveF_fields : ∀ (fuel : Nat) (s : Sudoku) (b : Bool) (t : Sudoku),
    solveF fuel s = (b, t) → t.dimension = s.dimension ∧
      t.block_size = s.block_size ∧ (GridShape s → GridShape t)
  | 0, s, b, t, h => by
    rw [solveF_zero] at h
    obtain ⟨hb, ht⟩ : b = false ∧ t = s := by simpa using h.symm
    rw [ht]
    exact ⟨rfl, rfl, id⟩
  | fuel + 1, s, b, t, h => by
    rcases hfb : find_best_cell s with _ | ⟨row, col⟩
    · rw [solveF_succ_none s fuel hfb] at h
      obtain ⟨hb, ht⟩ : b = true ∧ t = s := by simpa using h.symm
      rw [ht]
      exact ⟨rfl, rfl, id⟩
    · rw [solveF_succ_some s fuel hfb] at h
      exact tryLoop_fields (fun u => solveF fuel u) row col
        (fun u b' u' hu => solveF_fields fuel u b' u' hu) (numsList s) s b t h

/-! ### Characterisation of `is_valid` -/

lemma row_any_iff {s : Sudoku} (hsh : GridShape s) {r : Nat}
    (hr : r < s.dimension) (number : Int) :
    (rowOf s r).any (fun cell => cell.value == number) = true ↔
      ∃ j, j < s.dimension ∧ cellVal s r j = number := by
  rw [List.any_eq_true]
  constructor
  · rintro ⟨x, hx, hbx⟩
    obtain ⟨j, hj, hxj⟩ := List.mem_iff_getElem.mp hx
    refine ⟨j, ?_, ?_⟩
    · rw [← rowOf_length hsh hr]; exact hj
    · unfold cellVal
      rw [getD_eq_getElem _ _ hj, hxj]
      simpa using hbx
  · rintro ⟨j, hj, hv⟩
    have hjl : j < (rowOf s r).length := by rw [rowOf_length hsh hr]; exact hj
    refine ⟨(rowOf s r)[j], List.getElem_mem hjl, ?_⟩
    have heq : cellVal s r j = (rowOf s r)[j].value := by
      unfold cellVal
      rw [getD_eq_getElem _ _ hjl]
    rw [heq] at hv
    simpa using hv

lemma col_any_iff (s : Sudoku) (c : Nat) (number : Int) :
    (colOf s c).any (fun cell => cell.value == number) = true ↔
      ∃ i, i < s.dimension ∧ cellVal s i c = number := by
  simp [colOf, List.any_eq_true, cellVal]

lemma grid_any_iff {s : Sudoku} (hsh : GridShape s) (number : Int) :
    (s.grid.any (fun r => r.any (fun cell => cell.value == number)) = true) ↔
      ∃ i, i < s.dimension ∧ ∃ j, j < s.dimension ∧ cellVal s i j = number := by
  rw [List.any_eq_true]
  constructor
  · rintro ⟨row, hrow, hany⟩
    obtain ⟨i, hi, hri⟩ := List.mem_iff_getElem.mp hrow
    have hid : i < s.dimension := by rw [← hsh.1]; exact hi
    have hrowOf : rowOf s i = row := by
      unfold rowOf
      rw [getD_eq_getElem _ _ hi, hri]
    rw [List.any_eq_true] at hany
    obtain ⟨x, hx, hbx⟩ := hany
    obtain ⟨j, hj, hxj⟩ := List.mem_iff_getElem.mp hx
    have hjd : j < s.dimension := by
      rw [← hsh.2 row hrow]; exact hj
    refine ⟨i, hid, j, hjd, ?_⟩
    unfold cellVal
    rw [hrowOf, getD_eq_getElem _ _ hj, hxj]
    simpa using hbx
  · rintro ⟨i, hi, j, hj, hv⟩
    have hil : i < s.grid.length := by rw [hsh.1]; exact hi
    refine ⟨s.grid[i], List.getElem_mem hil, ?_⟩
    rw [List.any_eq_true]
    have hrowOf : rowOf s i = s.grid[i] := by
      unfold rowOf
      rw [getD_eq_getElem _ _ hil]
    have hjl : j < s.grid[i].length := by
      rw [hsh.2 _ (List.getElem_mem hil)]; exact hj
    refine ⟨s.grid[i][j], List.getElem_mem hjl, ?_⟩
    have heq : cellVal s i j = s.grid[i][j].value := by
      unfold cellVal
      rw [hrowOf, getD_eq_getElem _ _ hjl]
    rw [heq] at hv
    simpa using hv

/-- The coordinates covered by block `r / B` are exactly the in-range
coordinates with the same block index. -/
lemma block_coord_iff {d B : Nat} (hB : B * B = d) (hB0 : 0 < B) {r : Nat}
    (hr : r < d) (i : Nat) :
    (∃ a, a < B ∧ i = r / B * B + a) ↔ (i < d ∧ i / B = r / B) := by
  constructor
  · rintro ⟨a, ha, rfl⟩
    constructor
    · have hrB : r / B < B := (Nat.div_lt_iff_lt_mul hB0).mpr (by rw [hB]; exact hr)
      calc r / B * B + a < r / B * B + B := by omega
        _ = (r / B + 1) * B := by ring
        _ ≤ B * B := Nat.mul_le_mul_right B (by omega)
        _ = d := hB
    · rw [Nat.mul_comm (r / B) B, Nat.mul_add_div hB0]
      rw [Nat.div_eq_of_lt ha]
      omega
  · rintro ⟨hid, hdiv⟩
    refine ⟨i % B, Nat.mod_lt i hB0, ?_⟩
    rw [← hdiv, Nat.mul_comm (i / B) B]
    exact (Nat.div_add_mod i B).symm

lemma block_any_iff {s : Sudoku} (hwf : Wf s) {row col : Nat}
    (hr : row < s.dimension) (hc : col < s.dimension) (number : Int) :
    ((get_block s (row / isqrt s.dimension) (col / isqrt s.dimension)).any
        (fun r => r.any (fun cell => cell.value == number)) = true) ↔
      ∃ i, i < s.dimension ∧ ∃ j, j < s.dimension ∧
        sameBlock s.dimension row col i j ∧ cellVal s i j = number := by
  by_cases hd3 : s.dimension ≤ 3
  · rw [show get_block s (row / isqrt s.dimension) (col / isqrt s.dimension)
        = s.grid from by simp [get_block, hd3]]
    rw [grid_any_iff hwf.1 number]
    constructor
    · rintro ⟨i, hi, j, hj, hv⟩
      exact ⟨i, hi, j, hj, Or.inl hd3, hv⟩
    · rintro ⟨i, hi, j, hj, _, hv⟩
      exact ⟨i, hi, j, hj, hv⟩
  · have hsq : isqrt s.dimension * isqrt s.dimension = s.dimension := by
      rcases hwf.2.2 with h | h
      · exact absurd h hd3
      · exact h
    have hbs : s.block_size = isqrt s.dimension := by
      rw [hwf.2.1, if_pos (by omega)]
    have hB0 : 0 < isqrt s.dimension := by
      by_contra hB
      have : isqrt s.dimension = 0 := by omega
      rw [this] at hsq
      omega
    rw [show get_block s (row / isqrt s.dimension) (col / isqrt s.dimension)
        = (List.range s.block_size).map (fun a =>
            (List.range s.block_size).map (fun b =>
              (rowOf s (row / isqrt s.dimension * s.block_size + a)).getD
                (col / isqrt s.dimension * s.block_size + b) (Cell.mk 0)))
        from by rw [get_block, if_neg hd3]]
    rw [List.any_eq_true]
    constructor
    · rintro ⟨blockRow, hbr, hany⟩
      rw [List.mem_map] at hbr
      obtain ⟨a, ha, rfl⟩ := hbr
      rw [List.mem_range] at ha
      rw [List.any_eq_true] at hany
      obtain ⟨x, hx, hbx⟩ := hany
      rw [List.mem_map] at hx
      obtain ⟨b, hb, rfl⟩ := hx
      rw [List.mem_range] at hb
      rw [hbs] at ha hb
      have hi := (block_coord_iff hsq hB0 hr
        (row / isqrt s.dimension * isqrt s.dimension + a)).mp ⟨a, ha, rfl⟩
      have hj := (block_coord_iff hsq hB0 hc
        (col / isqrt s.dimension * isqrt s.dimension + b)).mp ⟨b, hb, rfl⟩
      refine ⟨_, hi.1, _, hj.1, Or.inr ⟨hi.2.symm, hj.2.symm⟩, ?_⟩
      rw [hbs] at hbx
      simpa [cellVal] using hbx
    · rintro ⟨i, hi, j, hj, hsb, hv⟩
      have hblk : i / isqrt s.dimension = row / isqrt s.dimension ∧
          j / isqrt s.dimension = col / isqrt s.dimension := by
        rcases hsb with h | h
        · exact absurd h hd3
        · exact ⟨h.1.symm, h.2.symm⟩
      obtain ⟨a, ha, hia⟩ := (block_coord_iff hsq hB0 hr i).mpr ⟨hi, hblk.1⟩
      obtain ⟨b, hb, hjb⟩ := (block_coord_iff hsq hB0 hc j).mpr ⟨hj, hblk.2⟩
      refine ⟨(List.range s.block_size).map (fun b =>
          (rowOf s (row / isqrt s.dimension * s.block_size + a)).getD
            (col / isqrt s.dimension * s.block_size + b) (Cell.mk 0)),
        List.mem_map.mpr ⟨a, List.mem_range.mpr (by rw [hbs]; exact ha), rfl⟩,
        ?_⟩
      rw [List.any_eq_true]
      refine ⟨(rowOf s (row / isqrt s.dimension * s.block_size + a)).getD
          (col / isqrt s.dimension * s.block_size + b) (Cell.mk 0),
        List.mem_map.mpr ⟨b, List.mem_range.mpr (by rw [hbs]; exact hb), rfl⟩,
        ?_⟩
      rw [hbs]
      have : cellVal s i j = ((rowOf s (row / isqrt s.dimension
          * isqrt s.dimension + a)).getD
          (col / isqrt s.dimension * isqrt s.dimension + b) (Cell.mk 0)).value := by
        rw [← hia, ← hjb]
        rfl
      rw [this] at hv
      simpa using hv

/-- `is_valid` succeeds exactly when the number is absent from the row, the
column, and the block containing the cell (the whole grid when
`dimension ≤ 3`). -/
lemma is_valid_iff {s : Sudoku} (hwf : Wf s) {row col : Nat}
    (hr : row < s.dimension) (hc : col < s.dimension) (number : Int) :
    is_valid s row col number = true ↔
      (∀ j, j < s.dimension → cellVal s row j ≠ number) ∧
      (∀ i, i < s.dimension → cellVal s i col ≠ number) ∧
      (∀ i j, i < s.dimension → j < s.dimension →
        sameBlock s.dimension row col i j → cellVal s i j ≠ number) := by
  unfold is_valid
  constructor
  · intro h
    by_cases hrow : (rowOf s row).any (fun cell => cell.value == number) = true
    · rw [if_pos hrow] at h
      exact absurd h (by simp)
    · rw [if_neg hrow] at h
      by_cases hcol : (colOf s col).any (fun cell => cell.value == number) = true
      · rw [if_pos hcol] at h
        exact absurd h (by simp)
      · rw [if_neg hcol] at h
        simp only at h
        by_cases hblk : (get_block s (row / isqrt s.dimension)
            (col / isqrt s.dimension)).any
            (fun r => r.any (fun cell => cell.value == number)) = true
        · rw [if_pos hblk] at h
          exact absurd h (by simp)
        · refine ⟨?_, ?_, ?_⟩
          · intro j hj hv
            exact hrow ((row_any_iff hwf.1 hr number).mpr ⟨j, hj, hv⟩)
          · intro i hi hv
            exact hcol ((col_any_iff s col number).mpr ⟨i, hi, hv⟩)
          · intro i j hi hj hsb hv
            exact hblk ((block_any_iff hwf hr hc number).mpr
              ⟨i, hi, j, hj, hsb, hv⟩)
  · rintro ⟨hrow, hcol, hblk⟩
    have h1 : (rowOf s row).any (fun cell => cell.value == number) ≠ true := by
      intro hx
      obtain ⟨j, hj, hv⟩ := (row_any_iff hwf.1 hr number).mp hx
      exact hrow j hj hv
    have h2 : (colOf s col).any (fun cell => cell.value == number) ≠ true := by
      intro hx
      obtain ⟨i, hi, hv⟩ := (col_any_iff s col number).mp hx
      exact hcol i hi hv
    have h3 : (get_block s (row / isqrt s.dimension)
        (col / isqrt s.dimension)).any
        (fun r => r.any (fun cell => cell.value == number)) ≠ true := by
      intro hx
      obtain ⟨i, hi, j, hj, hsb, hv⟩ := (block_any_iff hwf hr hc number).mp hx
      exact hblk i j hi hj hsb hv
    rw [if_neg h1, if_neg h2]
    simp only
    rw [if_neg h3]

/-! ### Consistency is preserved by a validated placement -/

lemma sameBlock_symm {d a b c e : Nat} (h : sameBlock d a b c e) :
    sameBlock d c e a b := by
  rcases h with h | ⟨h1, h2⟩
  · exact Or.inl h
  · exact Or.inr ⟨h1.symm, h2.symm⟩

lemma mem_numsList {s : Sudoku} {num : Int} :
    num ∈ numsList s ↔ 1 ≤ num ∧ num ≤ (s.dimension : Int) := by
  rw [numsList, List.mem_map]
  constructor
  · rintro ⟨k, hk, rfl⟩
    rw [List.mem_range] at hk
    omega
  · rintro ⟨hge, hle⟩
    exact ⟨(num - 1).toNat, List.mem_range.mpr (by omega), by omega⟩

lemma valuesIn_setCell {s : Sudoku} (hsh : GridShape s) {row col : Nat}
    (hr : row < s.dimension) (hc : col < s.dimension) {num : Int}
    (h1 : 1 ≤ num) (h2 : num ≤ (s.dimension : Int)) (hv : ValuesIn s) :
    ValuesIn (setCell s row col num) := by
  intro i hi j hj
  by_cases hij : i = row ∧ j = col
  · obtain ⟨rfl, rfl⟩ := hij
    rw [cellVal_setCell_same s (hsh.1 ▸ hr) ((rowOf_length hsh hr) ▸ hc) num]
    exact ⟨by omega, h2⟩
  · rw [cellVal_setCell_ne s row col i j num hij]
    exact hv i hi j hj

lemma uniqOn_setCell {s : Sudoku} (hwf : Wf s) {row col : Nat}
    (hr : row < s.dimension) (hc : col < s.dimension)
    (h0 : cellVal s row col = 0) {num : Int}
    (hvalid : is_valid s row col num = true) (hu : uniqOn s) :
    uniqOn (setCell s row col num) := by
  have hrl : row < s.grid.length := hwf.1.1 ▸ hr
  have hcl : col < (rowOf s row).length := (rowOf_length hwf.1 hr) ▸ hc
  have hsame : ∀ i j, cellVal (setCell s row col num) i j
      = if i = row ∧ j = col then num else cellVal s i j := by
    intro i j
    by_cases hij : i = row ∧ j = col
    · obtain ⟨rfl, rfl⟩ := hij
      rw [if_pos ⟨rfl, rfl⟩]
      exact cellVal_setCell_same s hrl hcl num
    · rw [if_neg hij]
      exact cellVal_setCell_ne s row col i j num hij
  obtain ⟨hnorow, hnocol, hnoblk⟩ := (is_valid_iff hwf hr hc num).mp hvalid
  intro r1 h1 c1 h2 r2 h3 c2 h4 hne hunit hnz
  rw [hsame] at hnz ⊢
  rw [hsame]
  by_cases p1 : r1 = row ∧ c1 = col
  · rw [if_pos p1] at hnz ⊢
    by_cases p2 : r2 = row ∧ c2 = col
    · exact absurd (by rw [p1.1, p1.2, p2.1, p2.2] : (r1, c1) = (r2, c2)) hne
    · rw [if_neg p2]
      obtain ⟨rfl, rfl⟩ := p1
      intro hv
      rcases hunit with he | he | he
      · exact hnorow c2 h4 (by rw [← he] at hv; exact hv.symm)
      · exact hnocol r2 h3 (by rw [← he] at hv; exact hv.symm)
      · exact hnoblk r2 c2 h3 h4 he hv.symm
  · rw [if_neg p1] at hnz ⊢
    by_cases p2 : r2 = row ∧ c2 = col
    · rw [if_pos p2]
      obtain ⟨rfl, rfl⟩ := p2
      intro hv
      rcases hunit with he | he | he
      · exact hnorow c1 h2 (by rw [he] at hv; exact hv)
      · exact hnocol r1 h1 (by rw [he] at hv; exact hv)
      · exact hnoblk r1 c1 h1 h2 (sameBlock_symm he) hv
    · rw [if_neg p2]
      exact hu r1 h1 c1 h2 r2 h3 c2 h4 hne hunit hnz

/-- `Solves` seen through a placement at an empty cell:
a completion of the extended board completes the original board. -/
lemma solves_of_setCell {s t : Sudoku} {row col : Nat}
    (h0 : cellVal s row col = 0) {num : Int}
    (h : Solves (setCell s row col num) t) : Solves s t := by
  obtain ⟨hdim, hagree, hvals, huniq⟩ := h
  refine ⟨hdim, ?_, hvals, huniq⟩
  intro i hi j hj hnz
  have hij : ¬ (i = row ∧ j = col) := by
    rintro ⟨rfl, rfl⟩
    exact hnz h0
  have := hagree i hi j hj (by
    rw [cellVal_setCell_ne s row col i j num hij]; exact hnz)
  rw [cellVal_setCell_ne s row col i j num hij] at this
  exact this

/-- A completion of the original board that places `num` at the chosen cell
also completes the extended board. -/
lemma solves_setCell_of {s t : Sudoku} (hsh : GridShape s) {row col : Nat}
    (hr : row < s.dimension) (hc : col < s.dimension) {num : Int}
    (hsol : Solves s t) (hval : cellVal t row col = num) :
    Solves (setCell s row col num) t := by
  obtain ⟨hdim, hagree, hvals, huniq⟩ := hsol
  refine ⟨hdim, ?_, hvals, huniq⟩
  intro i hi j hj hnz
  by_cases hij : i = row ∧ j = col
  · obtain ⟨rfl, rfl⟩ := hij
    rw [cellVal_setCell_same s (hsh.1 ▸ hr) ((rowOf_length hsh hr) ▸ hc) num]
    exact hval
  · rw [cellVal_setCell_ne s row col i j num hij] at hnz ⊢
    exact hagree i hi j hj hnz

/-- Any completion assigns the chosen empty cell a value that `is_valid`
accepts on the current board. -/
lemma solves_is_valid {s t : Sudoku} (hwf : Wf s) (hsol : Solves s t)
    {row col : Nat} (hr : row < s.dimension) (hc : col < s.dimension)
    (h0 : cellVal s row col = 0) :
    is_valid s row col (cellVal t row col) = true := by
  obtain ⟨hdim, hagree, hvals, huniq⟩ := hsol
  have hv1 : 1 ≤ cellVal t row col := (hvals row hr col hc).1
  rw [is_valid_iff hwf hr hc]
  refine ⟨?_, ?_, ?_⟩
  · intro j hj hv
    have hjc : j ≠ col := by
      intro hjc
      rw [hjc] at hv
      rw [hv] at h0
      omega
    have hnz : cellVal s row j ≠ 0 := by rw [hv]; omega
    have ht : cellVal t row j = cellVal t row col := by
      rw [hagree row hr j hj hnz, hv]
    exact huniq row (hdim ▸ hr) col (hdim ▸ hc) row (hdim ▸ hr) j (hdim ▸ hj)
      (by simp [hjc.symm]) (Or.inl rfl) (by omega) ht.symm
  · intro i hi hv
    have hic : i ≠ row := by
      intro hic
      rw [hic] at hv
      rw [hv] at h0
      omega
    have hnz : cellVal s i col ≠ 0 := by rw [hv]; omega
    have ht : cellVal t i col = cellVal t row col := by
      rw [hagree i hi col hc hnz, hv]
    exact huniq row (hdim ▸ hr) col (hdim ▸ hc) i (hdim ▸ hi) col (hdim ▸ hc)
      (by simp [hic.symm]) (Or.inr (Or.inl rfl)) (by omega) ht.symm
  · intro i j hi hj hsb hv
    have hij : ¬ (i = row ∧ j = col) := by
      rintro ⟨rfl, rfl⟩
      rw [hv] at h0
      omega
    have hnz : cellVal s i j ≠ 0 := by rw [hv]; omega
    have ht : cellVal t i j = cellVal t row col := by
      rw [hagree i hi j hj hnz, hv]
    refine huniq row (hdim ▸ hr) col (hdim ▸ hc) i (hdim ▸ hi) j (hdim ▸ hj)
      ?_ ?_ (by omega) ht.symm
    · intro hpair
      have : row = i ∧ col = j := by
        constructor
        · exact congrArg Prod.fst hpair
        · exact congrArg Prod.snd hpair
      exact hij ⟨this.1.symm, this.2.symm⟩
    · right; right
      rw [hdim]
      exact hsb

/-! ### Soundness and completeness of the search -/

lemma tryLoop_sound (f : Sudoku → Bool × Sudoku) (row col : Nat)
    (hf : ∀ u, Wf u → ValuesIn u → uniqOn u → ∀ t, f u = (true, t) → Solves u t)
    (hff : ∀ u u', f u = (false, u') → u' = u) :
    ∀ (nums : List Int) (s : Sudoku), Wf s → ValuesIn s → uniqOn s →
    row < s.dimension → col < s.dimension → cellVal s row col = 0 →
    (∀ num ∈ nums, 1 ≤ num ∧ num ≤ (s.dimension : Int)) →
    ∀ t, tryLoop f row col s nums = (true, t) → Solves s t
  | [], s, _, _, _, _, _, _, _, t, h => by
    rw [tryLoop_nil] at h
    exact absurd h (by simp)
  | num :: rest, s, hwf, hvi, hu, hr, hc, h0, hnums, t, h => by
    by_cases hv : is_valid s row col num = true
    · rcases hres : f (setCell s row col num) with ⟨b', u⟩
      have hnum := hnums num (List.mem_cons_self _ _)
      cases b' with
      | true =>
        rw [tryLoop_cons_valid_true f row col hv hres rest] at h
        obtain ⟨_, hbt⟩ : True ∧ t = u := by simpa using h.symm
        subst hbt
        have hsu : Solves (setCell s row col num) t :=
          hf _ (wf_setCell hwf row col num)
            (valuesIn_setCell hwf.1 hr hc hnum.1 hnum.2 hvi)
            (uniqOn_setCell hwf hr hc h0 hv hu) t hres
        exact solves_of_setCell h0 hsu
      | false =>
        have hu' : u = setCell s row col num := hff _ _ hres
        rw [tryLoop_cons_valid_false f row col hv hres rest] at h
        rw [hu', setCell_setCell_restore s h0 num] at h
        exact tryLoop_sound f row col hf hff rest s hwf hvi hu hr hc h0
          (fun n hn => hnums n (List.mem_cons_of_mem _ hn)) t h
    · rw [tryLoop_cons_invalid f row col hv rest] at h
      exact tryLoop_sound f row col hf hff rest s hwf hvi hu hr hc h0
        (fun n hn => hnums n (List.mem_cons_of_mem _ hn)) t h

/-- Soundness: when the search succeeds from a consistent board, the final
grid is a satisfying completion of the initial one. -/
lemma solveF_sound : ∀ (fuel : Nat) (s : Sudoku), Wf s → ValuesIn s →
    uniqOn s → ∀ t, solveF fuel s = (true, t) → Solves s t
  | 0, s, _, _, _, t, h => by
    rw [solveF_zero] at h
    exact absurd h (by simp)
  | fuel + 1, s, hwf, hvi, hu, t, h => by
    rcases hfb : find_best_cell s with _ | ⟨row, col⟩
    · rw [solveF_succ_none s fuel hfb] at h
      obtain ⟨_, hts⟩ : True ∧ t = s := by simpa using h.symm
      rw [hts]
      have hfull := (find_best_cell_none_iff s).mp hfb
      refine ⟨rfl, fun _ _ _ _ _ => rfl, ?_, hu⟩
      intro r hr c hc
      have h1 := (hvi r hr c hc).1
      have h2 := (hvi r hr c hc).2
      have h3 := hfull r hr c hc
      exact ⟨by omega, h2⟩
    · obtain ⟨hr, hc, h0⟩ := find_best_cell_some hfb
      rw [solveF_succ_some s fuel hfb] at h
      exact tryLoop_sound (fun u => solveF fuel u) row col
        (fun u hw hv hq t' ht' => solveF_sound fuel u hw hv hq t' ht')
        (fun u u' hu' => solveF_false fuel u u' hu') (numsList s) s hwf hvi hu
        hr hc h0 (fun n hn => mem_numsList.mp hn) t h

lemma tryLoop_complete (f : Sudoku → Bool × Sudoku) (row col : Nat)
    (s t : Sudoku) (hwf : Wf s) (hvi : ValuesIn s) (hu : uniqOn s)
    (hr : row < s.dimension) (hc : col < s.dimension)
    (h0 : cellVal s row col = 0) (hsol : Solves s t)
    (hfc : ∀ num : Int, 1 ≤ num → num ≤ (s.dimension : Int) →
      is_valid s row col num = true →
      (∃ w, Solves (setCell s row col num) w) →
      (f (setCell s row col num)).1 = true)
    (hff : ∀ u u', f u = (false, u') → u' = u) :
    ∀ nums : List Int, cellVal t row col ∈ nums →
    (∀ num ∈ nums, 1 ≤ num ∧ num ≤ (s.dimension : Int)) →
    (tryLoop f row col s nums).1 = true
  | [], hmem, _ => absurd hmem (List.not_mem_nil _)
  | num :: rest, hmem, hnums => by
    have hvt : is_valid s row col (cellVal t row col) = true :=
      solves_is_valid hwf hsol hr hc h0
    by_cases hv : is_valid s row col num = true
    · rcases hres : f (setCell s row col num) with ⟨b', u⟩
      cases b' with
      | true =>
        rw [tryLoop_cons_valid_true f row col hv hres rest]
      | false =>
        have hnv : num ≠ cellVal t row col := by
          intro he
          have hnum := hnums num (List.mem_cons_self _ _)
          have : (f (setCell s row col num)).1 = true :=
            hfc num hnum.1 hnum.2 hv
              ⟨t, solves_setCell_of hwf.1 hr hc hsol (by rw [he])⟩
          rw [hres] at this
          exact absurd this (by simp)
        have hu' : u = setCell s row col num := hff _ _ hres
        rw [tryLoop_cons_valid_false f row col hv hres rest]
        rw [hu', setCell_setCell_restore s h0 num]
        exact tryLoop_complete f row col s t hwf hvi hu hr hc h0 hsol hfc hff
          rest (by
            rcases List.mem_cons.mp hmem with he | he
            · exact absurd he.symm hnv
            · exact he)
          (fun n hn => hnums n (List.mem_cons_of_mem _ hn))
    · have hnv : num ≠ cellVal t row col := by
        intro he
        rw [he] at hv
        exact hv hvt
      rw [tryLoop_cons_invalid f row col hv rest]
      exact tryLoop_complete f row col s t hwf hvi hu hr hc h0 hsol hfc hff
        rest (by
          rcases List.mem_cons.mp hmem with he | he
          · exact absurd he.symm hnv
          · exact he)
        (fun n hn => hnums n (List.mem_cons_of_mem _ hn))

/-- Completeness: given enough fuel, the search succeeds from every
consistent board that admits a satisfying completion. -/
lemma solveF_complete : ∀ (fuel : Nat) (s : Sudoku), Wf s → ValuesIn s →
    uniqOn s → emptyCount s < fuel → (∃ t, Solves s t) →
    (solveF fuel s).1 = true
  | 0, _, _, _, _, hec, _ => absurd hec (by omega)
  | fuel + 1, s, hwf, hvi, hu, hec, ⟨t, hsol⟩ => by
    rcases hfb : find_best_cell s with _ | ⟨row, col⟩
    · rw [solveF_succ_none s fuel hfb]
    · obtain ⟨hr, hc, h0⟩ := find_best_cell_some hfb
      rw [solveF_succ_some s fuel hfb]
      have hrl : row < s.grid.length := hwf.1.1 ▸ hr
      have hcl : col < (rowOf s row).length := (rowOf_length hwf.1 hr) ▸ hc
      have hvt : 1 ≤ cellVal t row col ∧
          cellVal t row col ≤ (s.dimension : Int) := hsol.2.2.1 row hr col hc
      refine tryLoop_complete (fun u => solveF fuel u) row col s t hwf hvi hu
        hr hc h0 hsol ?_ (fun u u' hu' => solveF_false fuel u u' hu')
        (numsList s) (mem_numsList.mpr hvt) (fun n hn => mem_numsList.mp hn)
      intro num h1 h2 hval hex
      have hecs : emptyCount (setCell s row col num) + 1 = emptyCount s :=
        emptyCount_setCell s hrl hcl h0 (by omega)
      exact solveF_complete fuel (setCell s row col num)
        (wf_setCell hwf row col num)
        (valuesIn_setCell hwf.1 hr hc h1 h2 hvi)
        (uniqOn_setCell hwf hr hc h0 hval hu) (by omega) hex

lemma tryLoop_congr (f g : Sudoku → Bool × Sudoku) (row col : Nat)
    (s : Sudoku) (h0 : cellVal s row col = 0)
    (hff : ∀ u u', f u = (false, u') → u' = u)
    (hgf : ∀ u u', g u = (false, u') → u' = u) :
    ∀ nums : List Int,
    (∀ num ∈ nums, is_valid s row col num = true →
      f (setCell s row col num) = g (setCell s row col num)) →
    tryLoop f row col s nums = tryLoop g row col s nums
  | [], _ => rfl
  | num :: rest, hfg => by
    by_cases hv : is_valid s row col num = true
    · have heq := hfg num (List.mem_cons_self _ _) hv
      rcases hres : f (setCell s row col num) with ⟨b', u⟩
      cases b' with
      | true =>
        rw [tryLoop_cons_valid_true f row col hv hres rest,
          tryLoop_cons_valid_true g row col hv (heq ▸ hres) rest]
      | false =>
        have hu' : u = setCell s row col num := hff _ _ hres
        rw [tryLoop_cons_valid_false f row col hv hres rest,
          tryLoop_cons_valid_false g row col hv (heq ▸ hres) rest]
        rw [hu', setCell_setCell_restore s h0 num]
        exact tryLoop_congr f g row col s h0 hff hgf rest
          (fun n hn => hfg n (List.mem_cons_of_mem _ hn))
    · rw [tryLoop_cons_invalid f row col hv rest,
        tryLoop_cons_invalid g row col hv rest]
      exact tryLoop_congr f g row col s h0 hff hgf rest
        (fun n hn => hfg n (List.mem_cons_of_mem _ hn))

/-- The fuel is irrelevant above the `emptyCount s + 1` threshold used by
`solve`: the fuelled model computes the same result for any sufficient
fuel, so it faithfully models the (unbounded) Python recursion. -/
lemma solveF_fuel_irrel : ∀ (f1 f2 : Nat) (s : Sudoku), GridShape s →
    emptyCount s < f1 → emptyCount s < f2 → solveF f1 s = solveF f2 s
  | 0, _, _, _, he1, _ => absurd he1 (by omega)
  | _ + 1, 0, _, _, _, he2 => absurd he2 (by omega)
  | e1 + 1, e2 + 1, s, hsh, he1, he2 => by
    rcases hfb : find_best_cell s with _ | ⟨row, col⟩
    · rw [solveF_succ_none s e1 hfb, solveF_succ_none s e2 hfb]
    · obtain ⟨hr, hc, h0⟩ := find_best_cell_some hfb
      rw [solveF_succ_some s e1 hfb, solveF_succ_some s e2 hfb]
      have hrl : row < s.grid.length := hsh.1 ▸ hr
      have hcl : col < (rowOf s row).length := (rowOf_length hsh hr) ▸ hc
      refine tryLoop_congr _ _ row col s h0
        (fun u u' hu' => solveF_false e1 u u' hu')
        (fun u u' hu' => solveF_false e2 u u' hu') (numsList s) ?_
      intro num hmem _
      have hnum := mem_numsList.mp hmem
      have hecs : emptyCount (setCell s row col num) + 1 = emptyCount s :=
        emptyCount_setCell s hrl hcl h0 (by omega)
      exact solveF_fuel_irrel e1 e2 (setCell s row col num)
        (gridShape_setCell hsh row col num) (by omega) (by omega)

/-! ### Behaviour of the index-based accessors -/

lemma pyGetItem_none_iff {α : Type} (l : List α) (i : Int) :
    pyGetItem l i = none ↔ (i < -(l.length : Int) ∨ (l.length : Int) ≤ i) := by
  unfold pyGetItem
  by_cases h1 : 0 ≤ i
  · rw [if_pos h1, List.get?_eq_none]
    omega
  · rw [if_neg h1]
    by_cases h2 : 0 ≤ i + (l.length : Int)
    · rw [if_pos h2, List.get?_eq_none]
      omega
    · rw [if_neg h2]
      constructor
      · intro _
        left
        omega
      · intro _
        rfl

lemma pyGetItem_wrap {α : Type} (l : List α) (i : Int)
    (h1 : -(l.length : Int) ≤ i) (h2 : i < 0) :
    pyGetItem l i = pyGetItem l (i + (l.length : Int)) := by
  unfold pyGetItem
  rw [if_neg (by omega), if_pos (by omega), if_pos (by omega)]

lemma seqCells_isSome (f : Nat → Option Cell) :
    ∀ L : List Nat, (∀ r ∈ L, (f r).isSome) → (seqCells f L).isSome
  | [], _ => rfl
  | a :: L, h => by
    have ha := h a (List.mem_cons_self _ _)
    have hrest := seqCells_isSome f L (fun r hr => h r (List.mem_cons_of_mem _ hr))
    rw [seqCells]
    rcases hfa : f a with _ | c
    · rw [hfa] at ha
      exact absurd ha (by simp)
    · rcases hrec : seqCells f L with _ | cs
      · rw [hrec] at hrest
        exact absurd hrest (by simp)
      · simp

lemma seqCells_none (f : Nat → Option Cell) :
    ∀ (L : List Nat) (r0 : Nat), r0 ∈ L → f r0 = none → seqCells f L = none
  | [], r0, h, _ => absurd h (List.not_mem_nil r0)
  | a :: L, r0, h, hf => by
    rw [seqCells]
    rcases hfa : f a with _ | c
    · rfl
    · have hr0 : r0 ∈ L := by
        rcases List.mem_cons.mp h with he | he
        · rw [he] at hf
          rw [hf] at hfa
          exact absurd hfa (by simp)
        · exact he
      rw [seqCells_none f L r0 hr0 hf]

lemma seqCells_congr (f g : Nat → Option Cell) :
    ∀ L : List Nat, (∀ r ∈ L, f r = g r) → seqCells f L = seqCells g L
  | [], _ => rfl
  | a :: L, h => by
    rw [seqCells, seqCells, h a (List.mem_cons_self _ _),
      seqCells_congr f g L (fun r hr => h r (List.mem_cons_of_mem _ hr))]

lemma get_row_none_iff {s : Sudoku} (hsh : GridShape s) (i : Int) :
    get_row s i = none ↔
      (i < -(s.dimension : Int) ∨ (s.dimension : Int) ≤ i) := by
  rw [get_row, pyGetItem_none_iff, hsh.1]

lemma get_row_wrap {s : Sudoku} (hsh : GridShape s) (i : Int)
    (h1 : -(s.dimension : Int) ≤ i) (h2 : i < 0) :
    get_row s i = get_row s (i + (s.dimension : Int)) := by
  unfold get_row
  rw [← hsh.1] at h1 ⊢
  exact pyGetItem_wrap s.grid i h1 h2

lemma get_col_none_iff {s : Sudoku} (hsh : GridShape s) (hd : 0 < s.dimension)
    (i : Int) :
    get_col s i = none ↔
      (i < -(s.dimension : Int) ∨ (s.dimension : Int) ≤ i) := by
  constructor
  · intro h
    by_contra hrange
    have hin : -(s.dimension : Int) ≤ i ∧ i < (s.dimension : Int) := by omega
    have hsome : (get_col s i).isSome := by
      apply seqCells_isSome
      intro r hr
      rw [List.mem_range] at hr
      have hrl : r < s.grid.length := hsh.1 ▸ hr
      rw [List.get?_eq_get hrl]
      simp only [Option.some_bind, List.get_eq_getElem]
      have hlen : (s.grid[r]).length = s.dimension :=
        hsh.2 _ (List.getElem_mem hrl)
      rcases hni : pyGetItem s.grid[r] i with _ | c
      · rw [pyGetItem_none_iff, hlen] at hni
        omega
      · simp
    rw [h] at hsome
    exact absurd hsome (by simp)
  · intro h
    apply seqCells_none _ _ 0 (List.mem_range.mpr hd)
    have h0l : 0 < s.grid.length := hsh.1 ▸ hd
    rw [List.get?_eq_get h0l]
    simp only [Option.some_bind, List.get_eq_getElem]
    rw [pyGetItem_none_iff, hsh.2 _ (List.getElem_mem h0l)]
    exact h

lemma get_col_wrap {s : Sudoku} (hsh : GridShape s) (i : Int)
    (h1 : -(s.dimension : Int) ≤ i) (h2 : i < 0) :
    get_col s i = get_col s (i + (s.dimension : Int)) := by
  unfold get_col
  apply seqCells_congr
  intro r hr
  rw [List.mem_range] at hr
  have hrl : r < s.grid.length := hsh.1 ▸ hr
  rw [List.get?_eq_get hrl]
  simp only [Option.some_bind, List.get_eq_getElem]
  have hlen : (s.grid[r]).length = s.dimension :=
    hsh.2 _ (List.getElem_mem hrl)
  rw [pyGetItem_wrap s.grid[r] i (by rw [hlen]; exact h1) h2, hlen]

/-! ### The claims -/

/-- C1 (counterexample): the claim fails as stated.  For the board built
from `[1, 1, 1, 1]` (a 2² list with values in `[0, 2]`), `solve` returns
true, yet no assignment of the (nonexistent) empty cells satisfies
row/column/block uniqueness — the value 1 already occurs twice in row 0.
`solve` does not validate already-filled cells. -/
theorem c1_counterexample :
    (List.replicate 4 (1 : Int)).length = 2 * 2 ∧
    (∀ v ∈ List.replicate 4 (1 : Int), 0 ≤ v ∧ v ≤ (2 : Int)) ∧
    (solve (mkSudoku (List.replicate 4 (1 : Int)))).1 = true ∧
    ¬ ∃ t, Solves (mkSudoku (List.replicate 4 (1 : Int))) t := by
  refine ⟨by decide, by decide, by decide, ?_⟩
  rintro ⟨t, hdim, hagree, hvals, huniq⟩
  have h00 : cellVal t 0 0 = 1 := by
    rw [hagree 0 (by decide) 0 (by decide) (by decide)]
    decide
  have h01 : cellVal t 0 1 = 1 := by
    rw [hagree 0 (by decide) 1 (by decide) (by decide)]
    decide
  have hb0 : (0 : Nat) < t.dimension := by rw [hdim]; decide
  have hb1 : (1 : Nat) < t.dimension := by rw [hdim]; decide
  have := huniq 0 hb0 0 hb0 0 hb0 1 hb1 (by decide) (Or.inl rfl)
    (by rw [h00]; decide)
  rw [h00, h01] at this
  exact this rfl

/-- C1 (amended): for every well-formed Board (square grid, block size as
constructed, perfect-square dimension when at least 4) with values in
`[0, dimension]` whose filled cells already satisfy row/column/block
uniqueness, `solve` returns true iff the empty cells can be assigned
values in `[1, dimension]` satisfying uniqueness, and on true the final
grid holds such an assignment. -/
theorem c1_amended (s : Sudoku) (hwf : Wf s) (hvi : ValuesIn s)
    (hu : uniqOn s) :
    ((solve s).1 = true ↔ ∃ t, Solves s t) ∧
    ((solve s).1 = true → Solves s (solve s).2) := by
  have hpair : ∀ h : (solve s).1 = true, solve s = (true, (solve s).2) := by
    intro h
    rw [← h]
  constructor
  · constructor
    · intro h
      exact ⟨(solve s).2, solveF_sound _ s hwf hvi hu _ (hpair h)⟩
    · rintro ⟨t, ht⟩
      exact solveF_complete _ s hwf hvi hu (by omega) ⟨t, ht⟩
  · intro h
    exact solveF_sound _ s hwf hvi hu _ (hpair h)

/-- C1 (witness): the amended theorem applied to the trivial solvable
1×1 board. -/
theorem c1_amended_witness :
    (Wf (mkSudoku [0]) ∧ ValuesIn (mkSudoku [0]) ∧ uniqOn (mkSudoku [0])) ∧
    (((solve (mkSudoku [0])).1 = true ↔ ∃ t, Solves (mkSudoku [0]) t) ∧
     ((solve (mkSudoku [0])).1 = true →
       Solves (mkSudoku [0]) (solve (mkSudoku [0])).2)) :=
  ⟨⟨by decide, by decide, by decide⟩,
    c1_amended (mkSudoku [0]) (by decide) (by decide) (by decide)⟩

/-- C2 (confirmed): whenever `solve` returns false, the final grid is
cell-for-cell the grid from before the call — every tentative assignment
has been undone. -/
theorem c2_solve_false_restores (s t : Sudoku) (h : solve s = (false, t)) :
    t = s :=
  solveF_false _ s t h

/-- C2 (witness): an unsatisfiable 2×2 board (its only empty cell has no
candidate); `solve` returns false and the grid is unchanged. -/
theorem c2_witness :
    solve (mkSudoku [1, 2, 0, 1]) = (false, mkSudoku [1, 2, 0, 1]) ∧
    (solve (mkSudoku [1, 2, 0, 1])).2 = mkSudoku [1, 2, 0, 1] :=
  ⟨by decide,
    c2_solve_false_restores (mkSudoku [1, 2, 0, 1])
      (solve (mkSudoku [1, 2, 0, 1])).2 (by decide)⟩

/-- C3 (confirmed): on a well-formed Board, for in-range `(r, c)` and any
integer `number`, `is_valid` is true iff `number` occurs neither in row
`r`, nor in column `c`, nor in the block containing `(r, c)` — the whole
grid when `dimension ≤ 3`. -/
theorem c3_is_valid_iff (s : Sudoku) (hwf : Wf s) (r c : Nat)
    (hr : r < s.dimension) (hc : c < s.dimension) (number : Int) :
    is_valid s r c number = true ↔
      (∀ j, j < s.dimension → cellVal s r j ≠ number) ∧
      (∀ i, i < s.dimension → cellVal s i c ≠ number) ∧
      (∀ i j, i < s.dimension → j < s.dimension →
        sameBlock s.dimension r c i j → cellVal s i j ≠ number) :=
  is_valid_iff hwf hr hc number

/-- C3 (witness): the characterisation applied at cell (0, 1), value 2, of
the full 2×2 board `[[1, 2], [3, 4]]`. -/
theorem c3_witness :
    Wf (mkSudoku [1, 2, 3, 4]) ∧
    (is_valid (mkSudoku [1, 2, 3, 4]) 0 1 2 = true ↔
      (∀ j, j < (mkSudoku [1, 2, 3, 4]).dimension →
        cellVal (mkSudoku [1, 2, 3, 4]) 0 j ≠ 2) ∧
      (∀ i, i < (mkSudoku [1, 2, 3, 4]).dimension →
        cellVal (mkSudoku [1, 2, 3, 4]) i 1 ≠ 2) ∧
      (∀ i j, i < (mkSudoku [1, 2, 3, 4]).dimension →
        j < (mkSudoku [1, 2, 3, 4]).dimension →
        sameBlock (mkSudoku [1, 2, 3, 4]).dimension 0 1 i j →
        cellVal (mkSudoku [1, 2, 3, 4]) i j ≠ 2)) :=
  ⟨by decide,
    c3_is_valid_iff (mkSudoku [1, 2, 3, 4]) (by decide) 0 1 (by decide)
      (by decide) 2⟩

/-- C4 (counterexample): the claim fails as stated.  On the 4×4 board
below, cell (3, 3) is the unique empty cell with exactly one candidate,
yet `find_best_cell` returns (0, 0) — an empty cell with zero candidates
scanned earlier — not (3, 3). -/
theorem c4_counterexample :
    cellVal (mkSudoku [0,1,2,3, 4,1,2,1, 2,3,1,2, 3,1,2,0]) 3 3 = 0 ∧
    (optionsAt (mkSudoku [0,1,2,3, 4,1,2,1, 2,3,1,2, 3,1,2,0]) 3 3).length
      = 1 ∧
    (∀ r, r < (mkSudoku [0,1,2,3, 4,1,2,1, 2,3,1,2, 3,1,2,0]).dimension →
      ∀ c, c < (mkSudoku [0,1,2,3, 4,1,2,1, 2,3,1,2, 3,1,2,0]).dimension →
      cellVal (mkSudoku [0,1,2,3, 4,1,2,1, 2,3,1,2, 3,1,2,0]) r c = 0 →
      (optionsAt (mkSudoku [0,1,2,3, 4,1,2,1, 2,3,1,2, 3,1,2,0]) r c).length
        = 1 → (r, c) = (3, 3)) ∧
    find_best_cell (mkSudoku [0,1,2,3, 4,1,2,1, 2,3,1,2, 3,1,2,0])
      = some (0, 0) ∧
    ((0, 0) : Nat × Nat) ≠ (3, 3) := by
  refine ⟨by decide, by decide, by decide, by decide, by decide⟩

/-- C4 (amended): if exactly one empty cell has exactly one candidate
**and no empty cell has zero candidates**, `find_best_cell` returns that
one-option cell, wherever it occurs in the scan order. -/
theorem c4_amended (s : Sudoku) (r0 c0 : Nat) (hr0 : r0 < s.dimension)
    (hc0 : c0 < s.dimension) (hempty : cellVal s r0 c0 = 0)
    (h1 : (optionsAt s r0 c0).length = 1)
    (hnozero : ∀ r, r < s.dimension → ∀ c, c < s.dimension →
      cellVal s r c = 0 → 1 ≤ (optionsAt s r c).length)
    (huniq : ∀ r, r < s.dimension → ∀ c, c < s.dimension →
      cellVal s r c = 0 → (optionsAt s r c).length = 1 → (r, c) = (r0, c0)) :
    find_best_cell s = some (r0, c0) := by
  have hmem : (r0, c0) ∈ allCoords s := mem_allCoords.mpr ⟨hr0, hc0⟩
  obtain ⟨pre, post, heq, hnot⟩ := mem_split_first (allCoords s) (r0, c0) hmem
  have hpre : ∀ p ∈ pre, cellVal s p.1 p.2 ≠ 0 ∨
      2 ≤ (optionsAt s p.1 p.2).length := by
    intro p hp
    have hpall : p ∈ allCoords s := by
      rw [heq]
      exact List.mem_append_left _ hp
    have hb := mem_allCoords.mp hpall
    by_cases hz : cellVal s p.1 p.2 = 0
    · right
      have hge := hnozero p.1 hb.1 p.2 hb.2 hz
      by_cases ho : (optionsAt s p.1 p.2).length = 1
      · exfalso
        apply hnot
        have hpe := huniq p.1 hb.1 p.2 hb.2 hz ho
        rw [← hpe]
        exact hp
      · omega
    · left
      exact hz
  rw [find_best_cell, heq]
  obtain ⟨m, best, hm, hrun⟩ :=
    fbcAux_skip s pre ((r0, c0) :: post) none none (Or.inl rfl) hpre
  rw [hrun]
  exact fbcAux_hit_first s hm hempty h1 post best

/-- C4 (witness): on `[[1, 1], [1, 0]]` the unique empty cell (1, 1) has
the single candidate 2 and is returned. -/
theorem c4_amended_witness :
    (cellVal (mkSudoku [1, 1, 1, 0]) 1 1 = 0 ∧
     (optionsAt (mkSudoku [1, 1, 1, 0]) 1 1).length = 1) ∧
    find_best_cell (mkSudoku [1, 1, 1, 0]) = some (1, 1) :=
  ⟨⟨by decide, by decide⟩,
    c4_amended (mkSudoku [1, 1, 1, 0]) 1 1 (by decide) (by decide) (by decide)
      (by decide) (by decide) (by decide)⟩

/-- C5 (counterexample): the claim fails as stated.  On the 4×4 board
below, cell (1, 0) is an empty cell with exactly one candidate, yet
`find_best_cell` returns the zero-candidate cell (0, 0): when a
zero-option cell is scanned first, the minimum drops to 0 and the
`min_options == 1` short-circuit can never fire. -/
theorem c5_counterexample :
    cellVal (mkSudoku [0,1,2,3, 0,0,0,2, 4,0,0,0, 0,0,1,0]) 1 0 = 0 ∧
    (optionsAt (mkSudoku [0,1,2,3, 0,0,0,2, 4,0,0,0, 0,0,1,0]) 1 0).length
      = 1 ∧
    find_best_cell (mkSudoku [0,1,2,3, 0,0,0,2, 4,0,0,0, 0,0,1,0])
      = some (0, 0) ∧
    (optionsAt (mkSudoku [0,1,2,3, 0,0,0,2, 4,0,0,0, 0,0,1,0]) 0 0).length
      = 0 ∧
    ((0, 0) : Nat × Nat) ≠ (1, 0) := by
  refine ⟨by decide, by decide, by decide, by decide, by decide⟩

/-- C5 (amended): if every empty cell scanned before the first one-option
cell has **at least two** candidates, `find_best_cell` returns that first
one-option cell, and it does so without examining any later cell: the
result is the same for every suffix of the scan list after that cell. -/
theorem c5_amended (s : Sudoku) (r0 c0 : Nat) (pre post : List (Nat × Nat))
    (hsplit : allCoords s = pre ++ (r0, c0) :: post)
    (hpre : ∀ p ∈ pre, cellVal s p.1 p.2 ≠ 0 ∨
      2 ≤ (optionsAt s p.1 p.2).length)
    (hempty : cellVal s r0 c0 = 0) (h1 : (optionsAt s r0 c0).length = 1) :
    find_best_cell s = some (r0, c0) ∧
    ∀ post2 : List (Nat × Nat),
      fbcAux s (pre ++ (r0, c0) :: post2) none none = some (r0, c0) := by
  have hgen : ∀ post2 : List (Nat × Nat),
      fbcAux s (pre ++ (r0, c0) :: post2) none none = some (r0, c0) := by
    intro post2
    obtain ⟨m, best, hm, hrun⟩ :=
      fbcAux_skip s pre ((r0, c0) :: post2) none none (Or.inl rfl) hpre
    rw [hrun]
    exact fbcAux_hit_first s hm hempty h1 post2 best
  refine ⟨?_, hgen⟩
  rw [find_best_cell, hsplit]
  exact hgen post

/-- C5 (witness): on `[[1, 0], [0, 0]]`, the first empty cell (0, 1) has
the single candidate 2; the scan stops there for every suffix. -/
theorem c5_amended_witness :
    (allCoords (mkSudoku [1, 0, 0, 0])
        = [(0, 0)] ++ (0, 1) :: [(1, 0), (1, 1)] ∧
     cellVal (mkSudoku [1, 0, 0, 0]) 0 1 = 0 ∧
     (optionsAt (mkSudoku [1, 0, 0, 0]) 0 1).length = 1) ∧
    (find_best_cell (mkSudoku [1, 0, 0, 0]) = some (0, 1) ∧
     ∀ post2 : List (Nat × Nat),
       fbcAux (mkSudoku [1, 0, 0, 0]) ([(0, 0)] ++ (0, 1) :: post2) none none
         = some (0, 1)) :=
  ⟨⟨by decide, by decide, by decide⟩,
    c5_amended (mkSudoku [1, 0, 0, 0]) 0 1 [(0, 0)] [(1, 0), (1, 1)]
      (by decide) (by decide) (by decide) (by decide)⟩

/-- C6 (counterexample): the claim fails as stated.  The source performs no
input validation: for the length-5 input (not a perfect square) the
constructor raises nothing and produces a complete 2×2 Board from the
first 4 entries. -/
theorem c6_counterexample :
    (∀ k : Nat, k * k ≠ (List.replicate 5 (0 : Int)).length) ∧
    mkSudoku (List.replicate 5 (0 : Int)) =
      { dimension := 2, block_size := 2,
        grid := [[Cell.mk 0, Cell.mk 0], [Cell.mk 0, Cell.mk 0]] } := by
  constructor
  · intro k
    have h5 : (List.replicate 5 (0 : Int)).length = 5 := by decide
    rw [h5]
    intro hk
    rcases Nat.lt_or_ge k 3 with h | h
    · have : k * k ≤ 2 * 2 := Nat.mul_le_mul (by omega) (by omega)
      omega
    · have : 3 * 3 ≤ k * k := Nat.mul_le_mul h h
      omega
  · decide

/-- C6 (amended): Board construction never fails and produces no error for
any input: `dimension` is the floor square root of the input length, the
grid is a `dimension × dimension` matrix, and cell `(r, c)` holds input
entry `r * dimension + c` unchanged (out-of-range values included). -/
theorem c6_amended (numbers : List Int) :
    (mkSudoku numbers).dimension = isqrt numbers.length ∧
    GridShape (mkSudoku numbers) ∧
    (∀ r c, r < isqrt numbers.length → c < isqrt numbers.length →
      cellVal (mkSudoku numbers) r c
        = numbers.getD (r * isqrt numbers.length + c) 0) :=
  ⟨rfl, mkSudoku_gridShape numbers,
    fun _ _ hr hc => cellVal_mkSudoku numbers hr hc⟩

/-- C6 (witness): the amended theorem at the invalid input `[1, 2, 3]`
(length 3, not a perfect square): a 1×1 Board holding the entry 1 is
produced. -/
theorem c6_amended_witness :
    ((0 : Nat) < isqrt ([1, 2, 3] : List Int).length ∧
     ([1, 2, 3] : List Int).getD 0 0 = 1) ∧
    cellVal (mkSudoku [1, 2, 3]) 0 0
      = ([1, 2, 3] : List Int).getD (0 * isqrt ([1, 2, 3] : List Int).length + 0) 0 :=
  ⟨⟨by decide, by decide⟩,
    (c6_amended [1, 2, 3]).2.2 0 0 (by decide) (by decide)⟩

/-- C7 (counterexample): the claim fails as stated.  On the 2×2 board
`[[1, 2], [3, 4]]`, the index −1 lies outside `[0, dimension)` yet
`get_row` returns the last row and `get_col` the last column (Python
negative indexing) instead of failing. -/
theorem c7_counterexample :
    ((-1 : Int) < 0 ∧
     get_row (mkSudoku [1, 2, 3, 4]) (-1) = some [Cell.mk 3, Cell.mk 4]) ∧
    get_col (mkSudoku [1, 2, 3, 4]) (-1) = some [Cell.mk 2, Cell.mk 4] := by
  refine ⟨⟨by decide, by decide⟩, by decide⟩

/-- C7 (amended): on a well-shaped nonempty Board, `get_row`/`get_col`
fail (raise `IndexError`) exactly for indices below `-dimension` or at or
above `dimension`; an index in `[-dimension, 0)` returns the row/column
`dimension + i`, counted from the end. -/
theorem c7_amended (s : Sudoku) (hsh : GridShape s) (hd : 0 < s.dimension)
    (i : Int) :
    (get_row s i = none ↔
      (i < -(s.dimension : Int) ∨ (s.dimension : Int) ≤ i)) ∧
    (get_col s i = none ↔
      (i < -(s.dimension : Int) ∨ (s.dimension : Int) ≤ i)) ∧
    (-(s.dimension : Int) ≤ i → i < 0 →
      get_row s i = get_row s (i + (s.dimension : Int)) ∧
      get_col s i = get_col s (i + (s.dimension : Int))) :=
  ⟨get_row_none_iff hsh i, get_col_none_iff hsh hd i,
    fun h1 h2 => ⟨get_row_wrap hsh i h1 h2, get_col_wrap hsh i h1 h2⟩⟩

/-- C7 (witness): the amended theorem at index 5 of the 2×2 board. -/
theorem c7_amended_witness :
    (GridShape (mkSudoku [1, 2, 3, 4]) ∧
     (0 : Nat) < (mkSudoku [1, 2, 3, 4]).dimension) ∧
    (get_row (mkSudoku [1, 2, 3, 4]) 5 = none ↔
      ((5 : Int) < -(((mkSudoku [1, 2, 3, 4]).dimension : Nat) : Int) ∨
       (((mkSudoku [1, 2, 3, 4]).dimension : Nat) : Int) ≤ 5)) :=
  ⟨⟨by decide, by decide⟩,
    (c7_amended (mkSudoku [1, 2, 3, 4]) (by decide) (by decide) 5).1⟩

/-- C8 (counterexample): the claim fails as stated.  The length-25 input
of zeros has the form N² with N = 5 ≥ 4 and values in [0, N], and the
constructed dimension is 5, but `block_size = ⌊√5⌋ = 2` and 2 × 2 ≠ 5:
`block_size × block_size = dimension` requires N to be a perfect square. -/
theorem c8_counterexample :
    (List.replicate 25 (0 : Int)).length = 5 * 5 ∧
    (∀ v ∈ List.replicate 25 (0 : Int), 0 ≤ v ∧ v ≤ (5 : Int)) ∧
    4 ≤ 5 ∧
    (mkSudoku (List.replicate 25 (0 : Int))).dimension = 5 ∧
    (mkSudoku (List.replicate 25 (0 : Int))).block_size *
      (mkSudoku (List.replicate 25 (0 : Int))).block_size ≠ 5 := by
  refine ⟨by decide, by decide, by decide, by decide, by decide⟩

/-- C8 (amended): for every input of length N² with values in [0, N], the
constructed dimension equals N, and when N ≥ 4 **is a perfect square**,
`block_size × block_size = dimension`. -/
theorem c8_amended (N : Nat) (numbers : List Int)
    (hlen : numbers.length = N * N)
    (_hvals : ∀ v ∈ numbers, 0 ≤ v ∧ v ≤ (N : Int)) :
    (mkSudoku numbers).dimension = N ∧
    (4 ≤ N → ∀ b : Nat, b * b = N →
      (mkSudoku numbers).block_size * (mkSudoku numbers).block_size = N) := by
  have hdim : (mkSudoku numbers).dimension = N := by
    rw [mkSudoku_dimension, hlen, isqrt_mul_self]
  refine ⟨hdim, ?_⟩
  intro h4 b hb
  have hbs : (mkSudoku numbers).block_size = isqrt N := by
    show (if 4 ≤ isqrt numbers.length then isqrt (isqrt numbers.length)
          else isqrt numbers.length) = isqrt N
    rw [hlen, isqrt_mul_self, if_pos h4]
  rw [hbs, isqrt_of_sq hb, hb]

/-- C8 (witness): the amended theorem at N = 4 with the all-zero input of
length 16. -/
theorem c8_amended_witness :
    ((List.replicate 16 (0 : Int)).length = 4 * 4 ∧
     (∀ v ∈ List.replicate 16 (0 : Int), 0 ≤ v ∧ v ≤ (4 : Int))) ∧
    ((mkSudoku (List.replicate 16 (0 : Int))).dimension = 4 ∧
     (4 ≤ 4 → ∀ b : Nat, b * b = 4 →
       (mkSudoku (List.replicate 16 (0 : Int))).block_size *
         (mkSudoku (List.replicate 16 (0 : Int))).block_size = 4)) :=
  ⟨⟨by decide, by decide⟩,
    c8_amended 4 (List.replicate 16 (0 : Int)) (by decide) (by decide)⟩

/-- C9 (confirmed): whatever `solve` returns, every cell that was nonzero
before the call holds the same value after it: `solve` writes only to
cells that are empty at the moment of the write, so clues are never
overwritten. -/
theorem c9_solve_preserves_clues (s : Sudoku) (res : Bool) (t : Sudoku)
    (h : solve s = (res, t)) (r c : Nat) (hnz : cellVal s r c ≠ 0) :
    cellVal t r c = cellVal s r c :=
  solveF_preserve _ s res t h r c hnz

/-- C9 (witness): the already-filled 1×1 board `[[1]]`; `solve` returns
true and the clue at (0, 0) is unchanged. -/
theorem c9_witness :
    (solve (mkSudoku [1]) = (true, mkSudoku [1]) ∧
     cellVal (mkSudoku [1]) 0 0 ≠ 0) ∧
    cellVal (solve (mkSudoku [1])).2 0 0 = cellVal (mkSudoku [1]) 0 0 :=
  ⟨⟨by decide, by decide⟩,
    c9_solve_preserves_clues (mkSudoku [1]) (solve (mkSudoku [1])).1
      (solve (mkSudoku [1])).2 (by decide) 0 0 (by decide)⟩

/-- C10 (confirmed): `find_best_cell` returns none exactly when no cell of
the grid holds 0, and on a completely filled grid — consistent or not —
`solve` returns true and leaves every cell unchanged; filled cells are
never validated. -/
theorem c10_full_board (s : Sudoku) :
    (find_best_cell s = none ↔
      ∀ r, r < s.dimension → ∀ c, c < s.dimension → cellVal s r c ≠ 0) ∧
    ((∀ r, r < s.dimension → ∀ c, c < s.dimension → cellVal s r c ≠ 0) →
      solve s = (true, s)) := by
  have hiff := find_best_cell_none_iff s
  refine ⟨hiff, ?_⟩
  intro h
  rw [solve]
  exact solveF_succ_none s _ (hiff.mpr h)

/-- C10 (witness): the full 2×2 board `[[1, 1], [1, 1]]` violates
uniqueness, yet `solve` returns true with the grid unchanged. -/
theorem c10_witness :
    ((∀ r, r < (mkSudoku [1, 1, 1, 1]).dimension →
        ∀ c, c < (mkSudoku [1, 1, 1, 1]).dimension →
        cellVal (mkSudoku [1, 1, 1, 1]) r c ≠ 0) ∧
     ¬ uniqOn (mkSudoku [1, 1, 1, 1])) ∧
    solve (mkSudoku [1, 1, 1, 1]) = (true, mkSudoku [1, 1, 1, 1]) :=
  ⟨⟨by decide, by decide⟩, (c10_full_board (mkSudoku [1, 1, 1, 1])).2 (by decide)⟩

end SudokuVerif
